import Mathlib

/-!
Verification development for the bobbin narrative-dialogue scripting runtime.

This file gives a shallow embedding of the parts of the system the claims
touch:

* the scope-based semantic resolver (`src/runtime/src/resolver.rs`),
* the stepping stack-machine VM (`src/runtime/src/vm.rs`),
* the runtime facade (`src/runtime/src/lib.rs`),
* the storage contract as documented (`src/runtime/src/storage.rs`),
* the fuzzy "did you mean?" matcher (`src/runtime/src/diagnostic/fuzzy.rs`).

Pure Rust functions become Lean functions; the VM's `run` loop (which can
diverge on a jump cycle) is embedded with an explicit fuel parameter where
`none` means fuel exhaustion, and Rust panics (out-of-bounds indexing,
`expect` on an empty stack) are an explicit `panic` outcome.

Hash maps are embedded as association lists where insertion prepends and
lookup takes the first hit, which models insert-overwrite semantics.
Rust `Vec::push` on error lists is embedded as appending to preserve order.
-/

/-- Byte-offset source span (from the token module): half-open interval;
the Rust field `end` is called `stop` here because `end` is reserved. -/
structure Span where
  start : Nat
  stop : Nat
deriving DecidableEq

/-- NodeId: opaque unique identity for binding-relevant AST nodes;
modelled as a natural number (the parser assigns them in build order). -/
abbrev NodeId := Nat

/-- Modelled from the spec (section 3, AST) and the resolver's pattern
matches: a text part of a line or choice label is either a literal run or
an interpolated variable reference. -/
inductive TextPart where
  | literal (text : String)
  | varRef (id : NodeId) (name : String) (span : Span)

mutual

/-- Modelled from the spec (section 3, AST): the statement forms the
resolver matches on. The declaration/assignment initializer expressions are
omitted because `Resolver::resolve_stmt` never inspects them (it matches
`VarBindingData { id, name, span, .. }`). -/
inductive Stmt where
  | line (parts : List TextPart) (span : Span)
  | choiceSet (choices : List Choice)
  | tempDecl (id : NodeId) (name : String) (span : Span)
  | saveDecl (id : NodeId) (name : String) (span : Span)
  | externDecl (id : NodeId) (name : String) (span : Span)
  | assignment (id : NodeId) (name : String) (span : Span)

/-- Modelled from the spec (section 3, AST): a choice has display-text
parts, a span, and a nested statement block forming its own scope. -/
inductive Choice where
  | mk (parts : List TextPart) (span : Span) (nested : List Stmt)

end

/-- Display-text parts of a choice. -/
def Choice.parts : Choice → List TextPart
  | Choice.mk parts _ _ => parts

/-- Nested statement block of a choice. -/
def Choice.nested : Choice → List Stmt
  | Choice.mk _ _ nested => nested

/-- Association-list lookup: first entry with the given key wins.
This is the embedding of `HashMap::get` (entries are prepended on insert,
so the first hit is the most recent insertion). -/
def alookup {α β : Type} [DecidableEq α] : List (α × β) → α → Option β
  | [], _ => none
  | (k, v) :: rest, key => if k = key then some v else alookup rest key

/-- Semantic errors of the resolver (`SemanticError` in resolver.rs).
`assignmentToExternVar` is the `AssignmentToExtern` variant. -/
inductive SemanticError where
  | undefinedVariable (name : String) (span : Span)
  | shadowing (name : String) (span : Span) (original : Span)
  | assignmentToExternVar (name : String) (span : Span)
deriving DecidableEq

/-- Information about a declared temp variable (`VarInfo` in resolver.rs). -/
structure VarInfo where
  slot : Nat
  span : Span
deriving DecidableEq

/-- A lexical scope (`Scope` in resolver.rs): declared temp vars and
the next-free-slot counter snapshot taken when the scope was pushed. -/
structure Scope where
  vars : List (String × VarInfo)
  start_slot : Nat
deriving DecidableEq

/-- Resolver state (`Resolver` in resolver.rs, minus the borrowed AST).
`scopes` is innermost-first (the Rust code keeps a `Vec` with the innermost
scope last; the list head here is the Rust `last`). Save/extern globals map
names to the span of their declaration. -/
structure Resolver where
  scopes : List Scope
  save_vars : List (String × Span)
  extern_vars : List (String × Span)
  next_slot : Nat
  bindings : List (NodeId × Nat)
  save_bindings : List (NodeId × String)
  extern_bindings : List (NodeId × String)
  errors : List SemanticError
deriving DecidableEq

/-- Initial resolver state (`Resolver::new`): one global scope, empty
namespaces, slot counter zero. -/
def init_resolver : Resolver :=
  { scopes := [{ vars := [], start_slot := 0 }]
    save_vars := []
    extern_vars := []
    next_slot := 0
    bindings := []
    save_bindings := []
    extern_bindings := []
    errors := [] }

/-- Push a fresh scope, snapshotting the slot counter (`push_scope`). -/
def push_scope (r : Resolver) : Resolver :=
  { r with scopes := { vars := [], start_slot := r.next_slot } :: r.scopes }

/-- Pop the innermost scope, restoring the slot counter to the snapshot
taken when that scope was pushed (`pop_scope`). -/
def pop_scope (r : Resolver) : Resolver :=
  match r.scopes with
  | [] => r
  | sc :: rest => { r with scopes := rest, next_slot := sc.start_slot }

/-- Conflict check against the save then extern global namespaces
(`find_global_conflict`): returns the original declaration's span. -/
def find_global_conflict (r : Resolver) (name : String) : Option Span :=
  match alookup r.save_vars name with
  | some sp => some sp
  | none => alookup r.extern_vars name

/-- Search a scope list (ordered innermost-first) for a temp variable. -/
def find_temp_var (name : String) : List Scope → Option VarInfo
  | [] => none
  | sc :: rest =>
    match alookup sc.vars name with
    | some vi => some vi
    | none => find_temp_var name rest

/-- Conflict check against a range of temp scopes (`find_temp_conflict`):
returns the span of the first conflicting declaration found. -/
def find_temp_conflict (name : String) (scopes : List Scope) : Option Span :=
  (find_temp_var name scopes).map VarInfo.span

/-- Declare a temp variable (`Resolver::declare_temp`): reject on a
save/extern conflict, then on a conflict in any outer scope, then on a
redeclaration in the current scope; otherwise allocate the next free slot,
bind it in the current scope and record the NodeId binding.
The `scopes = []` case is unreachable in the real pipeline (the global
scope is never popped; the Rust code would panic on `unwrap`). -/
def declare_temp (id : NodeId) (name : String) (sp : Span) (r : Resolver) :
    Resolver :=
  match find_global_conflict r name with
  | some original =>
    { r with errors := r.errors ++ [SemanticError.shadowing name sp original] }
  | none =>
  match find_temp_conflict name r.scopes.tail with
  | some original =>
    { r with errors := r.errors ++ [SemanticError.shadowing name sp original] }
  | none =>
  match r.scopes with
  | [] => r
  | current :: outer =>
    match alookup current.vars name with
    | some vi =>
      { r with errors := r.errors ++ [SemanticError.shadowing name sp vi.span] }
    | none =>
      let slot := r.next_slot
      { r with
        next_slot := slot + 1
        scopes :=
          { current with vars := (name, ⟨slot, sp⟩) :: current.vars }
            :: outer
        bindings := (id, slot) :: r.bindings }

/-- Declare a save variable (`Resolver::declare_save`): reject on a
save/extern conflict or a conflict with a temp in any open scope;
otherwise register it globally and record the NodeId binding. -/
def declare_save (id : NodeId) (name : String) (sp : Span) (r : Resolver) :
    Resolver :=
  match find_global_conflict r name with
  | some original =>
    { r with errors := r.errors ++ [SemanticError.shadowing name sp original] }
  | none =>
  match find_temp_conflict name r.scopes with
  | some original =>
    { r with errors := r.errors ++ [SemanticError.shadowing name sp original] }
  | none =>
    { r with
      save_vars := (name, sp) :: r.save_vars
      save_bindings := (id, name) :: r.save_bindings }

/-- Declare an extern variable (`Resolver::declare_extern`): same conflict
checks as a save declaration; on success register it globally, recording no
binding for the declaration node itself. -/
def declare_extern_var (name : String) (sp : Span) (r : Resolver) : Resolver :=
  match find_global_conflict r name with
  | some original =>
    { r with errors := r.errors ++ [SemanticError.shadowing name sp original] }
  | none =>
  match find_temp_conflict name r.scopes with
  | some original =>
    { r with errors := r.errors ++ [SemanticError.shadowing name sp original] }
  | none =>
    { r with extern_vars := (name, sp) :: r.extern_vars }

/-- Resolve a variable reference (`Resolver::resolve_reference`): search
temp scopes innermost-to-outermost, then save globals, then extern globals;
a write resolving to an extern name is the `AssignmentToExtern` error;
no match is `UndefinedVariable`. -/
def resolve_reference (id : NodeId) (name : String) (sp : Span)
    (for_write : Bool) (r : Resolver) : Resolver :=
  match find_temp_var name r.scopes with
  | some vi => { r with bindings := (id, vi.slot) :: r.bindings }
  | none =>
  match alookup r.save_vars name with
  | some _ => { r with save_bindings := (id, name) :: r.save_bindings }
  | none =>
  match alookup r.extern_vars name with
  | some _ =>
    if for_write then
      { r with
        errors := r.errors ++ [SemanticError.assignmentToExternVar name sp] }
    else
      { r with extern_bindings := (id, name) :: r.extern_bindings }
  | none =>
    { r with errors := r.errors ++ [SemanticError.undefinedVariable name sp] }

/-- Resolve the variable references of a text-part list
(`Resolver::resolve_text_parts`). -/
def resolve_text_parts (parts : List TextPart) (r : Resolver) : Resolver :=
  parts.foldl
    (fun r p =>
      match p with
      | TextPart.literal _ => r
      | TextPart.varRef id name sp => resolve_reference id name sp false r)
    r

/-- Resolve the display texts of every choice of a choice set against the
enclosing scope (the first loop of the `Stmt::ChoiceSet` arm). -/
def resolve_choice_texts (choices : List Choice) (r : Resolver) : Resolver :=
  choices.foldl (fun r c => resolve_text_parts (Choice.parts c) r) r

mutual

/-- Resolve one statement (`Resolver::resolve_stmt`). -/
def resolve_stmt : Stmt → Resolver → Resolver
  | Stmt.tempDecl id name sp, r => declare_temp id name sp r
  | Stmt.saveDecl id name sp, r => declare_save id name sp r
  | Stmt.externDecl _ name sp, r => declare_extern_var name sp r
  | Stmt.assignment id name sp, r => resolve_reference id name sp true r
  | Stmt.line parts _, r => resolve_text_parts parts r
  | Stmt.choiceSet choices, r =>
    resolve_choice_branches choices (resolve_choice_texts choices r)

/-- Resolve each choice's nested block in its own pushed-and-popped scope
(the second loop of the `Stmt::ChoiceSet` arm). -/
def resolve_choice_branches : List Choice → Resolver → Resolver
  | [], r => r
  | c :: rest, r => resolve_choice_branches rest (resolve_choice_branch c r)

/-- Resolve one choice branch (`Resolver::resolve_choice_branch`):
push a scope, resolve the nested statements, pop the scope. -/
def resolve_choice_branch : Choice → Resolver → Resolver
  | Choice.mk _ _ nested, r => pop_scope (resolve_stmts nested (push_scope r))

/-- Resolve a statement list in order (the walk inside `analyze`). -/
def resolve_stmts : List Stmt → Resolver → Resolver
  | [], r => r
  | st :: rest, r => resolve_stmts rest (resolve_stmt st r)

end

/-- Symbol table (`SymbolTable` in resolver.rs): the three NodeId-keyed
binding maps produced by a successful analysis. -/
structure SymbolTable where
  bindings : List (NodeId × Nat)
  save_bindings : List (NodeId × String)
  extern_bindings : List (NodeId × String)
deriving DecidableEq

/-- All currently-known variable names (`Resolver::known_variables`):
temps of every open scope, then save names, then extern names. -/
def known_variables (r : Resolver) : List String :=
  (r.scopes.foldr (fun sc acc => sc.vars.map Prod.fst ++ acc) [])
    ++ r.save_vars.map Prod.fst ++ r.extern_vars.map Prod.fst

/-- Semantic analysis entry point (`Resolver::analyze`): walk the script's
statements; succeed with the symbol table when no error was recorded,
otherwise fail with the error list and the known variable names. -/
def analyze (statements : List Stmt) :
    Except (List SemanticError × List String) SymbolTable :=
  let r := resolve_stmts statements init_resolver
  if r.errors = [] then
    Except.ok ⟨r.bindings, r.save_bindings, r.extern_bindings⟩
  else
    Except.error (r.errors, known_variables r)

/-- Modelled from the spec (section 3, Chunk): `Value` is a tagged union of
number, string, boolean (the defining `chunk.rs` is outside the provided
sources; numbers are embedded as integers since no claim depends on
numeric formatting). -/
inductive Value where
  | num (n : Int)
  | str (s : String)
  | bool (b : Bool)
deriving DecidableEq

/-- Modelled from the spec (section 4.6): conversion of a value to display
text (`Value::to_string_value`, whose defining `chunk.rs` is outside the
provided sources). -/
def Value.to_string_value : Value → String
  | Value.num n => toString n
  | Value.str s => s
  | Value.bool b => if b then "true" else "false"

/-- Modelled from the spec (section 3, Chunk) and the exhaustive match in
`VM::run`: the bytecode instruction set. `ret` is the `Return` variant. -/
inductive Instruction where
  | constant (index : Nat)
  | getLocal (slot : Nat)
  | setLocal (slot : Nat)
  | concat (count : Nat)
  | lineEmit
  | choiceDispatch (count : Nat) (targets : List Nat)
  | jump (target : Nat)
  | initStorage (name : String)
  | getStorage (name : String)
  | setStorage (name : String)
  | getHost (name : String)
  | ret
deriving DecidableEq

/-- Modelled from the spec (section 3): a chunk is a constant pool plus a
linear instruction sequence with absolute jump targets. -/
structure Chunk where
  constants : List Value
  code : List Instruction
deriving DecidableEq

/-- Runtime errors (`RuntimeError` in vm.rs). -/
inductive RuntimeError where
  | notAtChoice
  | invalidChoiceIndex (index : Nat) (count : Nat)
  | missingSaveVariable (name : String)
  | missingExternVariable (name : String)
deriving DecidableEq

/-- Outcome of running the VM: the three `StepResult` variants, a runtime
error (`Err` of the Rust `Result`), or a Rust panic (out-of-bounds indexing
or `expect` on an empty stack). -/
inductive RunResult where
  | lineOut (text : String)
  | choiceOut (texts : List String)
  | done
  | rerr (e : RuntimeError)
  | panic
deriving DecidableEq

/-- Classifies the outcomes the public `Result<StepResult, RuntimeError>`
type can carry; `panic` is not among them. -/
def is_normal_result : RunResult → Bool
  | RunResult.panic => false
  | _ => true

/-- Storage write (`VariableStorage::set` as documented in storage.rs):
unconditional overwrite, embedded as prepending to the association list. -/
def store_set (name : String) (v : Value) (store : List (String × Value)) :
    List (String × Value) :=
  (name, v) :: store

/-- Storage default application (`VariableStorage::initialize_if_absent` as
documented in storage.rs): set only if the name is not already present. -/
def init_if_absent (name : String) (v : Value) (store : List (String × Value)) :
    List (String × Value) :=
  match alookup store name with
  | some _ => store
  | none => (name, v) :: store

/-- VM state (`VM` in vm.rs): the chunk, instruction pointer and value
stack, plus the two host-supplied stores. The stack is bottom-first
(index 0 is the bottom, matching Rust's `stack[slot]`); pushing appends.
The shared `Arc<dyn VariableStorage>` / `Arc<dyn HostState>` handles are
embedded as association lists carried in the state, since the VM drives
them sequentially. -/
structure VM where
  chunk : Chunk
  ip : Nat
  stack : List Value
  storage : List (String × Value)
  host : List (String × Value)
deriving DecidableEq

/-- Pop the top of the value stack (Rust `Vec::pop`). -/
def stack_pop (stack : List Value) : Option (Value × List Value) :=
  match stack.getLast? with
  | none => none
  | some v => some (v, stack.dropLast)

/-- Core execution loop (`VM::run`): execute from the current instruction
pointer until a pause point (line, choice set, return), a runtime error, or
a panic. The Rust loop has no fuel; here `none` means the fuel ran out
before a pause point was reached. -/
def run_fuel : Nat → VM → Option (RunResult × VM)
  | 0, _ => none
  | n + 1, s =>
    match s.chunk.code.get? s.ip with
    | none => some (RunResult.panic, s)
    | some instr =>
      let s1 : VM := { s with ip := s.ip + 1 }
      match instr with
      | Instruction.constant index =>
        match s.chunk.constants.get? index with
        | none => some (RunResult.panic, s1)
        | some v => run_fuel n { s1 with stack := s1.stack ++ [v] }
      | Instruction.getLocal slot =>
        match s1.stack.get? slot with
        | none => some (RunResult.panic, s1)
        | some v => run_fuel n { s1 with stack := s1.stack ++ [v] }
      | Instruction.setLocal slot =>
        match stack_pop s1.stack with
        | none => some (RunResult.panic, s1)
        | some (v, rest) =>
          if slot < rest.length then
            run_fuel n { s1 with stack := rest.set slot v }
          else some (RunResult.panic, s1)
      | Instruction.concat count =>
        if count ≤ s1.stack.length then
          let start := s1.stack.length - count
          let joined :=
            String.join ((s1.stack.drop start).map Value.to_string_value)
          run_fuel n
            { s1 with stack := s1.stack.take start ++ [Value.str joined] }
        else some (RunResult.panic, s1)
      | Instruction.lineEmit =>
        match stack_pop s1.stack with
        | none => some (RunResult.panic, s1)
        | some (v, rest) =>
          some (RunResult.lineOut v.to_string_value, { s1 with stack := rest })
      | Instruction.choiceDispatch count _ =>
        if count ≤ s1.stack.length then
          let start := s1.stack.length - count
          let texts := (s1.stack.drop start).map Value.to_string_value
          some (RunResult.choiceOut texts,
            { s1 with stack := s1.stack.take start, ip := s1.ip - 1 })
        else some (RunResult.panic, s1)
      | Instruction.jump target =>
        run_fuel n { s1 with ip := target }
      | Instruction.initStorage name =>
        match stack_pop s1.stack with
        | none => some (RunResult.panic, s1)
        | some (v, rest) =>
          run_fuel n
            { s1 with stack := rest, storage := init_if_absent name v s1.storage }
      | Instruction.getStorage name =>
        match alookup s1.storage name with
        | some v => run_fuel n { s1 with stack := s1.stack ++ [v] }
        | none =>
          some (RunResult.rerr (RuntimeError.missingSaveVariable name), s1)
      | Instruction.setStorage name =>
        match stack_pop s1.stack with
        | none => some (RunResult.panic, s1)
        | some (v, rest) =>
          run_fuel n
            { s1 with stack := rest, storage := store_set name v s1.storage }
      | Instruction.getHost name =>
        match alookup s1.host name with
        | some v => run_fuel n { s1 with stack := s1.stack ++ [v] }
        | none =>
          some (RunResult.rerr (RuntimeError.missingExternVariable name), s1)
      | Instruction.ret =>
        some (RunResult.done, s1)

/-- One host-visible step (`VM::step` simply calls `run`). -/
def step (fuel : Nat) (s : VM) : Option (RunResult × VM) :=
  run_fuel fuel s

/-- Resume after a choice selection (`VM::select_and_continue`): read the
dispatch instruction at the current ip (`self.chunk.code[self.ip]`, a
panicking index when the ip is out of bounds), validate the index against
the choice count, jump to the selected branch target (itself a panicking
index into the target table), then continue with the normal `run` loop. -/
def select_and_continue (fuel : Nat) (index : Nat) (s : VM) :
    Option (RunResult × VM) :=
  match s.chunk.code.get? s.ip with
  | none => some (RunResult.panic, s)
  | some (Instruction.choiceDispatch count targets) =>
    if index ≥ count then
      some (RunResult.rerr (RuntimeError.invalidChoiceIndex index count), s)
    else
      match targets.get? index with
      | none => some (RunResult.panic, s)
      | some t => run_fuel fuel { s with ip := t }
  | some _ => some (RunResult.rerr RuntimeError.notAtChoice, s)

/-- Terminal lookahead (`VM::is_at_end`): follow unconditional jumps from
the current ip; `Return` or running past the end of code means the next
pause is terminal, a choice dispatch or any other instruction means more
content follows. The Rust loop does not terminate on a cycle of jumps, so
the embedding carries fuel; it reads only the chunk and the instruction
pointer, never the stack or stores, so it cannot mutate VM state. -/
def is_at_end_fuel : Nat → Chunk → Nat → Option Bool
  | 0, _, _ => none
  | n + 1, c, ip =>
    match c.code.get? ip with
    | none => some true
    | some Instruction.ret => some true
    | some (Instruction.jump target) => is_at_end_fuel n c target
    | some _ => some false

/-- Specification-side jump walk: the position reached after following
exactly `k` unconditional jumps from `ip`, or `none` when some intermediate
position does not hold a jump instruction. -/
def iterate_jumps (c : Chunk) : Nat → Nat → Option Nat
  | 0, ip => some ip
  | k + 1, ip =>
    match c.code.get? ip with
    | some (Instruction.jump target) => iterate_jumps c k target
    | _ => none

/-- Successor of an instruction position in a pause-free execution of the
`run` loop: pause points (line, choice dispatch, return) and positions past
the end of code have no successor; a jump continues at its target; every
other instruction may continue at the next position. -/
def next_ip (c : Chunk) (ip : Nat) : Option Nat :=
  match c.code.get? ip with
  | none => none
  | some Instruction.lineEmit => none
  | some (Instruction.choiceDispatch _ _) => none
  | some Instruction.ret => none
  | some (Instruction.jump target) => some target
  | some _ => some (ip + 1)

/-- Iterate `next_ip` for `k` steps: the position of the pause-free walk
after `k` executed instructions, or `none` if the walk stopped earlier. -/
def walk_iter (c : Chunk) : Nat → Nat → Option Nat
  | 0, ip => some ip
  | k + 1, ip =>
    match next_ip c ip with
    | none => none
    | some j => walk_iter c k j

/-- Runtime facade state (`Runtime` in lib.rs): the VM plus the cached
current line, the cached pending choice list, and the done flag. The shared
storage/host handles live inside the embedded VM state. -/
structure Runtime where
  vm : VM
  current_line : Option String
  current_choices : Option (List String)
  is_done : Bool
deriving DecidableEq

/-- Outcome of a facade call: `Ok(())`, a propagated runtime error, a
panic bubbling out of the VM, or fuel exhaustion of the embedding. -/
inductive FacadeOut where
  | ok
  | ferr (e : RuntimeError)
  | fpanic
  | ffuel
deriving DecidableEq

/-- Facade query `Runtime::is_waiting_for_choice`. -/
def is_waiting_for_choice (rt : Runtime) : Bool :=
  rt.current_choices.isSome

/-- Facade query `Runtime::current_choices` (empty when not paused at a
choice set). -/
def current_choices_list (rt : Runtime) : List String :=
  rt.current_choices.getD []

/-- Facade query `Runtime::current_line` (empty when not paused at a
line). -/
def current_line_text (rt : Runtime) : String :=
  rt.current_line.getD ""

/-- Facade bookkeeping after a successful VM step
(`Runtime::handle_step_result`): a line caches the text and asks
`is_at_end` whether that line was terminal; a choice caches the choice
list; done sets the flag. The error/panic outcomes never reach this
function in the Rust code (the `?` operator propagates them first); they
are mapped to their facade outcomes for totality. -/
def handle_step_result (fuel : Nat) (result : RunResult) (vm' : VM)
    (rt : Runtime) : FacadeOut × Runtime :=
  match result with
  | RunResult.lineOut text =>
    match is_at_end_fuel fuel vm'.chunk vm'.ip with
    | none => (FacadeOut.ffuel, { rt with vm := vm' })
    | some b =>
      (FacadeOut.ok,
        { rt with vm := vm', current_line := some text, is_done := b })
  | RunResult.choiceOut texts =>
    (FacadeOut.ok,
      { rt with vm := vm', current_line := none,
                current_choices := some texts })
  | RunResult.done =>
    (FacadeOut.ok, { rt with vm := vm', current_line := none, is_done := true })
  | RunResult.rerr e => (FacadeOut.ferr e, { rt with vm := vm' })
  | RunResult.panic => (FacadeOut.fpanic, { rt with vm := vm' })

/-- Facade choice selection (`Runtime::select_choice`): when no choice list
is cached this is a silent no-op returning `Ok(())`; otherwise the cached
list is cleared first, then the VM's `select_and_continue` runs and its
error (`?`) or success result is handled. -/
def select_choice (fuel : Nat) (index : Nat) (rt : Runtime) :
    FacadeOut × Runtime :=
  match rt.current_choices with
  | none => (FacadeOut.ok, rt)
  | some _ =>
    let rt1 : Runtime := { rt with current_choices := none }
    match select_and_continue fuel index rt1.vm with
    | none => (FacadeOut.ffuel, rt1)
    | some (RunResult.rerr e, vm') => (FacadeOut.ferr e, { rt1 with vm := vm' })
    | some (RunResult.panic, vm') => (FacadeOut.fpanic, { rt1 with vm := vm' })
    | some (result, vm') => handle_step_result fuel result vm' rt1

/-- Fuzzy matcher configuration (`JaroWinklerMatcher` in fuzzy.rs): the
minimum similarity score for a candidate to be considered a match. Scores
are embedded as rationals: the similarity computation itself lives in the
external `strsim` crate, so the matcher is parameterized over an arbitrary
similarity function below, and only the threshold filtering, maximum
selection and sorting embedded here come from fuzzy.rs. -/
structure JaroWinklerMatcher where
  threshold : ℚ
deriving DecidableEq

/-- Constructor `JaroWinklerMatcher::new`. -/
def matcher_new (t : ℚ) : JaroWinklerMatcher := ⟨t⟩

/-- Constructor `JaroWinklerMatcher::default_threshold`: the sensible
default threshold 0.7 (also `Default::default`). -/
def default_threshold : JaroWinklerMatcher := matcher_new (7 / 10)

/-- Score every candidate against the query (the common
`candidates.iter().map(|c| (c, jaro_winkler(query, c)))` of both matcher
methods), with the external similarity function passed explicitly. -/
def scored (sim : String → String → ℚ) (query : String)
    (candidates : List String) : List (String × ℚ) :=
  candidates.map (fun c => (c, sim query c))

/-- Rust `Iterator::max_by` on scores: fold keeping the maximum, the
later element winning ties. -/
def max_by_score : List (String × ℚ) → Option (String × ℚ) :=
  List.foldl
    (fun acc x =>
      match acc with
      | none => some x
      | some a => if x.2 < a.2 then some a else some x)
    none

/-- Matcher method `best_match`: keep the scored candidates at or above
the threshold, then take the maximum by score. -/
def best_match (sim : String → String → ℚ) (m : JaroWinklerMatcher)
    (query : String) (candidates : List String) : Option (String × ℚ) :=
  max_by_score ((scored sim query candidates).filter
    (fun p => m.threshold ≤ p.2))

/-- Stable descending insertion by score (embedding of the Rust stable
`sort_by(|a, b| b.1.partial_cmp(&a.1) ...)`). -/
def insert_desc (x : String × ℚ) : List (String × ℚ) → List (String × ℚ)
  | [] => [x]
  | y :: ys => if y.2 < x.2 then x :: y :: ys else y :: insert_desc x ys

/-- Sort scored candidates by score descending (stable). -/
def sort_desc : List (String × ℚ) → List (String × ℚ)
  | [] => []
  | x :: xs => insert_desc x (sort_desc xs)

/-- Matcher method `find_similar`: keep the scored candidates at or above
the threshold, sorted by score descending. -/
def find_similar (sim : String → String → ℚ) (m : JaroWinklerMatcher)
    (query : String) (candidates : List String) : List (String × ℚ) :=
  sort_desc ((scored sim query candidates).filter (fun p => m.threshold ≤ p.2))

/-- Does position `j` hold a terminal for the `is_at_end` walk: a `Return`
instruction or the end of code? -/
def terminal_at (c : Chunk) (j : Nat) : Bool :=
  match c.code.get? j with
  | none => true
  | some Instruction.ret => true
  | some _ => false

/-- Does position `j` hold an unconditional jump? -/
def is_jump_at (c : Chunk) (j : Nat) : Bool :=
  match c.code.get? j with
  | some (Instruction.jump _) => true
  | _ => false

/-- Compiler invariant from the spec (section 3): every jump target is an
in-bounds instruction index. -/
def jump_targets_ok (c : Chunk) : Bool :=
  c.code.all (fun i =>
    match i with
    | Instruction.jump t => t < c.code.length
    | _ => true)

/-- Compiler invariant from the spec (section 3): every choice-dispatch
target is an in-bounds instruction index. -/
def choice_targets_ok (c : Chunk) : Bool :=
  c.code.all (fun i =>
    match i with
    | Instruction.choiceDispatch _ ts => ts.all (fun t => t < c.code.length)
    | _ => true)

/-- Mutual-exclusion invariant of the three variable namespaces (spec
section 3): no extern name is simultaneously a live temp or a save name.
Every resolver state reachable by `analyze` satisfies it (proved below). -/
def extern_disjoint (r : Resolver) : Prop :=
  ∀ p ∈ r.extern_vars,
    find_temp_var p.1 r.scopes = none ∧ alookup r.save_vars p.1 = none

instance (r : Resolver) : Decidable (extern_disjoint r) := by
  unfold extern_disjoint; infer_instance

/-- Fresh VM over a chunk with empty stack and empty stores (`VM::new`
with empty backing maps). -/
def vm_start (c : Chunk) : VM :=
  { chunk := c, ip := 0, stack := [], storage := [], host := [] }

/-- One-instruction chunk holding only `Return` (the shape of a compiled
empty script's tail). -/
def chunk_ret : Chunk := { constants := [], code := [Instruction.ret] }

/-- VM state after `step` completed `chunk_ret`: the ip moved past the
final `Return`, one past the end of code. -/
def vm_after_ret : VM :=
  { chunk := chunk_ret, ip := 1, stack := [], storage := [], host := [] }

/-- Chunk whose single instruction is a zero-count concatenation: no jumps,
no pauses, so execution runs past the end of code. -/
def chunk_concat0 : Chunk := { constants := [], code := [Instruction.concat 0] }

/-- Chunk holding a single line-emit instruction. -/
def chunk_line1 : Chunk := { constants := [], code := [Instruction.lineEmit] }

/-- Chunk holding a jump to a `Return`. -/
def chunk_jump_ret : Chunk :=
  { constants := [], code := [Instruction.jump 1, Instruction.ret] }

/-- Chunk holding a single persistent-variable read. -/
def chunk_getgold : Chunk :=
  { constants := [], code := [Instruction.getStorage "gold"] }

/-- Chunk holding a two-way choice dispatch followed by a `Return`. -/
def chunk_choice2 : Chunk :=
  { constants := [],
    code := [Instruction.choiceDispatch 2 [1, 1], Instruction.ret] }

/-- Facade state paused after the final line of `chunk_ret`'s script:
no pending choices. -/
def rt_done : Runtime :=
  { vm := vm_after_ret, current_line := some "bye",
    current_choices := none, is_done := true }

/-- Facade state paused at the two-way choice of `chunk_choice2`. -/
def rt_choice : Runtime :=
  { vm := vm_start chunk_choice2, current_line := none,
    current_choices := some ["A", "B"], is_done := false }

/-- Resolver state with one declared save variable `gold`. -/
def res_with_save : Resolver :=
  { init_resolver with save_vars := [("gold", ⟨0, 4⟩)] }

/-- Resolver state with one declared extern variable `hp`. -/
def res_with_ext : Resolver :=
  { init_resolver with extern_vars := [("hp", ⟨0, 2⟩)] }

/-- No pause-free jump cycle from the current instruction pointer: the
pause-free successor walk never revisits a position within the window that
pigeonhole-bounds every terminating walk (code length + 2 steps). -/
def no_pause_free_cycle (s : VM) : Prop :=
  ∀ k2, k2 ≤ s.chunk.code.length + 2 → ∀ k1, k1 < k2 →
    (walk_iter s.chunk k1 s.ip).isSome →
    walk_iter s.chunk k1 s.ip ≠ walk_iter s.chunk k2 s.ip

instance (s : VM) : Decidable (no_pause_free_cycle s) := by
  unfold no_pause_free_cycle; infer_instance

/-- Never-normal outcome: every terminating amount of fuel makes the run
loop end in a panic rather than a line, choice, done or runtime error. -/
def run_never_normal (s : VM) : Prop :=
  ∀ n r s', run_fuel n s = some (r, s') → is_normal_result r = false

/-- The state in which execution of `chunk_concat0` gets stuck: the
concatenation ran, leaving an empty string on the stack, and the ip points
one past the end of code. -/
def vm_concat0_stuck : VM :=
  { chunk := chunk_concat0, ip := 1, stack := [Value.str ""],
    storage := [], host := [] }

theorem alookup_mem {α β : Type} [DecidableEq α] {l : List (α × β)} {k : α}
    {v : β} (h : alookup l k = some v) : (k, v) ∈ l := by
  induction l with
  | nil => simp [alookup] at h
  | cons p rest ih =>
    obtain ⟨k', v'⟩ := p
    by_cases hk : k' = k
    · subst hk
      simp [alookup] at h
      subst h
      exact List.mem_cons_self _ _
    · simp [alookup, hk] at h
      exact List.mem_cons_of_mem _ (ih h)

theorem alookup_eq_none_forall {α β : Type} [DecidableEq α]
    {l : List (α × β)} {k : α} (h : alookup l k = none) :
    ∀ p ∈ l, p.1 ≠ k := by
  intro p hp
  induction l with
  | nil => simp at hp
  | cons q rest ih =>
    obtain ⟨k', v'⟩ := q
    by_cases hk : k' = k
    · subst hk; simp [alookup] at h
    · simp [alookup, hk] at h
      rcases List.mem_cons.mp hp with hq | hq
      · subst hq; exact hk
      · exact ih h hq

theorem find_temp_var_cons_none {name : String} {sc : Scope}
    {rest : List Scope} :
    find_temp_var name (sc :: rest) = none
      ↔ alookup sc.vars name = none ∧ find_temp_var name rest = none := by
  constructor
  · intro h
    cases hsc : alookup sc.vars name with
    | none => simpa [find_temp_var, hsc] using h
    | some vi => simp [find_temp_var, hsc] at h
  · intro ⟨h1, h2⟩
    simp [find_temp_var, h1, h2]

theorem find_temp_var_mem {name : String} {scopes : List Scope}
    {vi : VarInfo} (h : find_temp_var name scopes = some vi) :
    ∃ sc ∈ scopes, alookup sc.vars name = some vi := by
  induction scopes with
  | nil => simp [find_temp_var] at h
  | cons sc rest ih =>
    cases hsc : alookup sc.vars name with
    | some vi' =>
      simp [find_temp_var, hsc] at h
      exact ⟨sc, List.mem_cons_self _ _, by rw [hsc, h]⟩
    | none =>
      simp [find_temp_var, hsc] at h
      obtain ⟨sc', hmem, hl⟩ := ih h
      exact ⟨sc', List.mem_cons_of_mem _ hmem, hl⟩

theorem find_global_conflict_none {r : Resolver} {name : String}
    (h : find_global_conflict r name = none) :
    alookup r.save_vars name = none ∧ alookup r.extern_vars name = none := by
  cases hs : alookup r.save_vars name with
  | some sp => simp [find_global_conflict, hs] at h
  | none => simpa [find_global_conflict, hs] using h

/-- Claim C5: executing a persistent-variable read when the storage's `get`
returns nothing makes the current step fail with `MissingSaveVariable`
carrying that name (never a default value); when `get` returns a value,
the value is pushed and execution continues. -/
theorem c5_get_storage_missing (s : VM) (name : String) (fuel : Nat)
    (hinstr : s.chunk.code[s.ip]? = some (Instruction.getStorage name)) :
    (alookup s.storage name = none →
      run_fuel (fuel + 1) s
        = some (RunResult.rerr (RuntimeError.missingSaveVariable name),
            { s with ip := s.ip + 1 }))
    ∧ (∀ v, alookup s.storage name = some v →
      run_fuel (fuel + 1) s
        = run_fuel fuel { s with ip := s.ip + 1, stack := s.stack ++ [v] }) := by
  constructor
  · intro hget
    simp [run_fuel, hinstr, hget]
  · intro v hget
    simp [run_fuel, hinstr, hget]

/-- Witness for C5: on a chunk whose current instruction reads save
variable `gold` from an empty storage, the step reports exactly
`MissingSaveVariable "gold"`. -/
theorem c5_get_storage_missing_witness :
    run_fuel 3 (vm_start chunk_getgold)
      = some (RunResult.rerr (RuntimeError.missingSaveVariable "gold"),
          { vm_start chunk_getgold with ip := 1 }) :=
  (c5_get_storage_missing (vm_start chunk_getgold) "gold" 2 rfl).1 rfl

/-- Claim C9: when the facade is not waiting at a choice set,
`select_choice` is a silent no-op: it returns `Ok(())` for any index and
leaves the facade (and hence the VM inside it) completely unchanged. -/
theorem c9_select_choice_noop (fuel index : Nat) (rt : Runtime)
    (h : is_waiting_for_choice rt = false) :
    select_choice fuel index rt = (FacadeOut.ok, rt) := by
  have hnone : rt.current_choices = none := by
    cases hc : rt.current_choices with
    | none => rfl
    | some l => rw [is_waiting_for_choice, hc] at h; simp at h
  simp [select_choice, hnone]

/-- Witness for C9: a finished runtime ignores `select_choice 7`. -/
theorem c9_select_choice_noop_witness :
    select_choice 3 7 rt_done = (FacadeOut.ok, rt_done) :=
  c9_select_choice_noop 3 7 rt_done rfl

/-- Claim C10: at a pending choice set with `count` choices and an
out-of-range index, `select_choice` propagates `InvalidChoiceIndex` and
leaves the VM (instruction pointer, stack, everything) unchanged, but has
already cleared the cached choice list, so the facade afterwards reports
no pending choice and an empty choice list. -/
theorem c10_select_choice_nonatomic (fuel index : Nat) (rt : Runtime)
    (l : List String) (count : Nat) (targets : List Nat)
    (hch : rt.current_choices = some l)
    (hinstr : rt.vm.chunk.code[rt.vm.ip]?
      = some (Instruction.choiceDispatch count targets))
    (hidx : index ≥ count) :
    select_choice fuel index rt
      = (FacadeOut.ferr (RuntimeError.invalidChoiceIndex index count),
          { rt with current_choices := none })
    ∧ is_waiting_for_choice { rt with current_choices := none } = false
    ∧ current_choices_list { rt with current_choices := none } = [] := by
  refine ⟨?_, rfl, rfl⟩
  simp [select_choice, hch, select_and_continue, hinstr, hidx]

/-- Witness for C10: selecting index 5 among 2 choices yields the
`InvalidChoiceIndex` error while clearing the cached choice list. -/
theorem c10_select_choice_nonatomic_witness :
    select_choice 4 5 rt_choice
      = (FacadeOut.ferr (RuntimeError.invalidChoiceIndex 5 2),
          { rt_choice with current_choices := none })
    ∧ is_waiting_for_choice { rt_choice with current_choices := none } = false
    ∧ current_choices_list { rt_choice with current_choices := none } = [] :=
  c10_select_choice_nonatomic 4 5 rt_choice ["A", "B"] 2 [1, 1] rfl rfl
    (by decide)

/-- Claim C2 (amended): at an in-bounds choice dispatch,
`select_and_continue` rejects `index ≥ count` with `InvalidChoiceIndex`
(state untouched) and on a valid index with a target-table entry jumps to
that branch target and then behaves exactly like `step`; at an in-bounds
non-dispatch instruction it yields `NotAtChoice`; but when the instruction
pointer is out of bounds — the state left behind after completing a chunk
whose final instruction is `Return` — the Rust read `self.chunk.code[self.ip]`
panics instead of returning `NotAtChoice`. -/
theorem c2_select_and_continue_amended (s : VM) (fuel index : Nat) :
    (∀ count targets,
      s.chunk.code[s.ip]? = some (Instruction.choiceDispatch count targets) →
      (index ≥ count →
        select_and_continue fuel index s
          = some (RunResult.rerr (RuntimeError.invalidChoiceIndex index count),
              s))
      ∧ (∀ t, index < count → targets[index]? = some t →
          select_and_continue fuel index s = step fuel { s with ip := t }))
    ∧ (∀ i, s.chunk.code[s.ip]? = some i →
        (∀ count targets, i ≠ Instruction.choiceDispatch count targets) →
        select_and_continue fuel index s
          = some (RunResult.rerr RuntimeError.notAtChoice, s))
    ∧ (s.chunk.code[s.ip]? = none →
        select_and_continue fuel index s = some (RunResult.panic, s)) := by
  refine ⟨?_, ?_, ?_⟩
  · intro count targets hinstr
    constructor
    · intro hidx
      simp [select_and_continue, hinstr, hidx]
    · intro t hidx ht
      have hnot : ¬ count ≤ index := by omega
      simp [select_and_continue, step, hinstr, hnot, ht]
  · intro i hinstr hnotchoice
    cases i with
    | choiceDispatch count targets => exact absurd rfl (hnotchoice count targets)
    | constant idx => simp [select_and_continue, hinstr]
    | getLocal slot => simp [select_and_continue, hinstr]
    | setLocal slot => simp [select_and_continue, hinstr]
    | concat count => simp [select_and_continue, hinstr]
    | lineEmit => simp [select_and_continue, hinstr]
    | jump target => simp [select_and_continue, hinstr]
    | initStorage name => simp [select_and_continue, hinstr]
    | getStorage name => simp [select_and_continue, hinstr]
    | setStorage name => simp [select_and_continue, hinstr]
    | getHost name => simp [select_and_continue, hinstr]
    | ret => simp [select_and_continue, hinstr]
  · intro hnone
    simp [select_and_continue, hnone]

/-- Witness for C2 (amended): at the two-way dispatch of `chunk_choice2`,
index 0 jumps to target 1 and then behaves exactly like `step` from
there. -/
theorem c2_select_and_continue_amended_witness :
    select_and_continue 2 0 (vm_start chunk_choice2)
      = step 2 { vm_start chunk_choice2 with ip := 1 } :=
  ((c2_select_and_continue_amended (vm_start chunk_choice2) 2 0).1 2 [1, 1]
    rfl).2 1 (by decide) rfl

/-- Counterexample for C2 as stated: after `step` completes `chunk_ret`
(single `Return`, the shape the compiler leaves at the end of a chunk),
the instruction pointer is one past the end of code; `select_and_continue`
then panics on the out-of-bounds instruction fetch instead of returning
`NotAtChoice` as the claim asserts for the after-completion case. -/
theorem c2_select_and_continue_counterexample :
    step 1 (vm_start chunk_ret) = some (RunResult.done, vm_after_ret)
    ∧ select_and_continue 5 0 vm_after_ret = some (RunResult.panic, vm_after_ret)
    ∧ RunResult.panic ≠ RunResult.rerr RuntimeError.notAtChoice := by
  refine ⟨rfl, rfl, by decide⟩

theorem is_at_end_fuel_of_walk (c : Chunk) :
    ∀ k ip j, iterate_jumps c k ip = some j → is_jump_at c j = false →
      is_at_end_fuel (k + 1) c ip = some (terminal_at c j) := by
  intro k
  induction k with
  | zero =>
    intro ip j hwalk hnj
    have hj : ip = j := by simpa [iterate_jumps] using hwalk
    subst hj
    cases hget : c.code[ip]? with
    | none => simp [is_at_end_fuel, terminal_at, hget]
    | some i =>
      cases i with
      | jump t => simp [is_jump_at, hget] at hnj
      | ret => simp [is_at_end_fuel, terminal_at, hget]
      | constant idx => simp [is_at_end_fuel, terminal_at, hget]
      | getLocal slot => simp [is_at_end_fuel, terminal_at, hget]
      | setLocal slot => simp [is_at_end_fuel, terminal_at, hget]
      | concat count => simp [is_at_end_fuel, terminal_at, hget]
      | lineEmit => simp [is_at_end_fuel, terminal_at, hget]
      | choiceDispatch count targets =>
        simp [is_at_end_fuel, terminal_at, hget]
      | initStorage name => simp [is_at_end_fuel, terminal_at, hget]
      | getStorage name => simp [is_at_end_fuel, terminal_at, hget]
      | setStorage name => simp [is_at_end_fuel, terminal_at, hget]
      | getHost name => simp [is_at_end_fuel, terminal_at, hget]
  | succ k ih =>
    intro ip j hwalk hnj
    cases hget : c.code[ip]? with
    | none => simp [iterate_jumps, hget] at hwalk
    | some i =>
      cases i with
      | jump t =>
        have hwalk' : iterate_jumps c k t = some j := by
          simpa [iterate_jumps, hget] using hwalk
        have := ih t j hwalk' hnj
        simpa [is_at_end_fuel, hget] using this
      | ret => simp [iterate_jumps, hget] at hwalk
      | constant idx => simp [iterate_jumps, hget] at hwalk
      | getLocal slot => simp [iterate_jumps, hget] at hwalk
      | setLocal slot => simp [iterate_jumps, hget] at hwalk
      | concat count => simp [iterate_jumps, hget] at hwalk
      | lineEmit => simp [iterate_jumps, hget] at hwalk
      | choiceDispatch count targets => simp [iterate_jumps, hget] at hwalk
      | initStorage name => simp [iterate_jumps, hget] at hwalk
      | getStorage name => simp [iterate_jumps, hget] at hwalk
      | setStorage name => simp [iterate_jumps, hget] at hwalk
      | getHost name => simp [iterate_jumps, hget] at hwalk

theorem walk_of_is_at_end_fuel (c : Chunk) :
    ∀ n ip b, is_at_end_fuel n c ip = some b →
      ∃ k j, iterate_jumps c k ip = some j ∧ is_jump_at c j = false
        ∧ terminal_at c j = b := by
  intro n
  induction n with
  | zero => intro ip b h; simp [is_at_end_fuel] at h
  | succ n ih =>
    intro ip b h
    cases hget : c.code[ip]? with
    | none =>
      have hb : b = true := by
        have := h
        simp [is_at_end_fuel, hget] at this
        exact this
      subst hb
      exact ⟨0, ip, by simp [iterate_jumps], by simp [is_jump_at, hget],
        by simp [terminal_at, hget]⟩
    | some i =>
      cases i with
      | jump t =>
        have h' : is_at_end_fuel n c t = some b := by
          simpa [is_at_end_fuel, hget] using h
        obtain ⟨k, j, hw, hnj, ht⟩ := ih t b h'
        refine ⟨k + 1, j, ?_, hnj, ht⟩
        simpa [iterate_jumps, hget] using hw
      | ret =>
        have hb : b = true := by
          have := h; simp [is_at_end_fuel, hget] at this
          exact this
        subst hb
        exact ⟨0, ip, by simp [iterate_jumps], by simp [is_jump_at, hget],
          by simp [terminal_at, hget]⟩
      | constant idx =>
        have hb : b = false := by
          have := h; simp [is_at_end_fuel, hget] at this
          exact this
        subst hb
        exact ⟨0, ip, by simp [iterate_jumps], by simp [is_jump_at, hget],
          by simp [terminal_at, hget]⟩
      | getLocal slot =>
        have hb : b = false := by
          have := h; simp [is_at_end_fuel, hget] at this
          exact this
        subst hb
        exact ⟨0, ip, by simp [iterate_jumps], by simp [is_jump_at, hget],
          by simp [terminal_at, hget]⟩
      | setLocal slot =>
        have hb : b = false := by
          have := h; simp [is_at_end_fuel, hget] at this
          exact this
        subst hb
        exact ⟨0, ip, by simp [iterate_jumps], by simp [is_jump_at, hget],
          by simp [terminal_at, hget]⟩
      | concat count =>
        have hb : b = false := by
          have := h; simp [is_at_end_fuel, hget] at this
          exact this
        subst hb
        exact ⟨0, ip, by simp [iterate_jumps], by simp [is_jump_at, hget],
          by simp [terminal_at, hget]⟩
      | lineEmit =>
        have hb : b = false := by
          have := h; simp [is_at_end_fuel, hget] at this
          exact this
        subst hb
        exact ⟨0, ip, by simp [iterate_jumps], by simp [is_jump_at, hget],
          by simp [terminal_at, hget]⟩
      | choiceDispatch count targets =>
        have hb : b = false := by
          have := h; simp [is_at_end_fuel, hget] at this
          exact this
        subst hb
        exact ⟨0, ip, by simp [iterate_jumps], by simp [is_jump_at, hget],
          by simp [terminal_at, hget]⟩
      | initStorage name =>
        have hb : b = false := by
          have := h; simp [is_at_end_fuel, hget] at this
          exact this
        subst hb
        exact ⟨0, ip, by simp [iterate_jumps], by simp [is_jump_at, hget],
          by simp [terminal_at, hget]⟩
      | getStorage name =>
        have hb : b = false := by
          have := h; simp [is_at_end_fuel, hget] at this
          exact this
        subst hb
        exact ⟨0, ip, by simp [iterate_jumps], by simp [is_jump_at, hget],
          by simp [terminal_at, hget]⟩
      | setStorage name =>
        have hb : b = false := by
          have := h; simp [is_at_end_fuel, hget] at this
          exact this
        subst hb
        exact ⟨0, ip, by simp [iterate_jumps], by simp [is_jump_at, hget],
          by simp [terminal_at, hget]⟩
      | getHost name =>
        have hb : b = false := by
          have := h; simp [is_at_end_fuel, hget] at this
          exact this
        subst hb
        exact ⟨0, ip, by simp [iterate_jumps], by simp [is_jump_at, hget],
          by simp [terminal_at, hget]⟩

theorem terminal_not_jump {c : Chunk} {j : Nat} (h : terminal_at c j = true) :
    is_jump_at c j = false := by
  cases hget : c.code[j]? with
  | none => simp [is_jump_at, hget]
  | some i =>
    cases i with
    | jump t => simp [terminal_at, hget] at h
    | ret => simp [is_jump_at, hget]
    | constant idx => simp [is_jump_at, hget]
    | getLocal slot => simp [is_jump_at, hget]
    | setLocal slot => simp [is_jump_at, hget]
    | concat count => simp [is_jump_at, hget]
    | lineEmit => simp [is_jump_at, hget]
    | choiceDispatch count targets => simp [is_jump_at, hget]
    | initStorage name => simp [is_jump_at, hget]
    | getStorage name => simp [is_jump_at, hget]
    | setStorage name => simp [is_jump_at, hget]
    | getHost name => simp [is_jump_at, hget]

/-- Claim C6: `is_at_end` is a pure lookahead — the embedding reads only
the chunk and the instruction pointer, so the VM state cannot change — and
it returns true exactly when following zero or more unconditional jumps
from the current ip reaches a `Return` or the end of code, and it returns
false as soon as that walk reaches a choice dispatch or any other
instruction ("returns b" meaning: some fuel makes the Rust loop, which
carries no fuel, exit with b). -/
theorem c6_is_at_end_lookahead (c : Chunk) (ip : Nat) :
    ((∃ n, is_at_end_fuel n c ip = some true)
      ↔ ∃ k j, iterate_jumps c k ip = some j ∧ terminal_at c j = true)
    ∧ (∀ k j, iterate_jumps c k ip = some j → is_jump_at c j = false →
        terminal_at c j = false →
        ∃ n, is_at_end_fuel n c ip = some false) := by
  constructor
  · constructor
    · intro ⟨n, hn⟩
      obtain ⟨k, j, hw, hnj, ht⟩ := walk_of_is_at_end_fuel c n ip true hn
      exact ⟨k, j, hw, ht⟩
    · intro ⟨k, j, hw, ht⟩
      refine ⟨k + 1, ?_⟩
      have := is_at_end_fuel_of_walk c k ip j hw (terminal_not_jump ht)
      rw [ht] at this
      exact this
  · intro k j hw hnj ht
    refine ⟨k + 1, ?_⟩
    have := is_at_end_fuel_of_walk c k ip j hw hnj
    rw [ht] at this
    exact this

/-- Witness for C6: on a chunk that jumps to a `Return`, the walk reaches
the terminal and `is_at_end` answers true. -/
theorem c6_is_at_end_lookahead_witness :
    ∃ n, is_at_end_fuel n chunk_jump_ret 0 = some true :=
  (c6_is_at_end_lookahead chunk_jump_ret 0).1.mpr ⟨1, 1, rfl, rfl⟩

theorem branch_single_temp (r : Resolver) (id : NodeId) (nm : String)
    (sp : Span) (parts : List TextPart) (csp : Span)
    (hg : find_global_conflict r nm = none)
    (ht : find_temp_var nm r.scopes = none) :
    resolve_choice_branch (Choice.mk parts csp [Stmt.tempDecl id nm sp]) r
      = { r with bindings := (id, r.next_slot) :: r.bindings } := by
  obtain ⟨hs, he⟩ := find_global_conflict_none hg
  simp [resolve_choice_branch, resolve_stmts, resolve_stmt, declare_temp,
    push_scope, pop_scope, find_global_conflict, find_temp_conflict,
    alookup, hs, he, ht, find_temp_var]

/-- Claim C1: two sibling choices of one `ChoiceSet`, each declaring one
temp variable, both get stack slot 0 whenever no temp is live in any
enclosing scope (slot counter 0) and the declared names are fresh; and the
choice-set resolution restores the slot counter and the scope stack to
their values from before the statement, because popping a branch scope
restores the counter snapshotted when the scope was pushed. -/
theorem c1_sibling_slot_reuse (r : Resolver) (id1 id2 : NodeId)
    (nm1 nm2 t1 t2 : String) (sp1 sp2 csp1 csp2 : Span)
    (hslot : r.next_slot = 0)
    (hid : id1 ≠ id2)
    (hg1 : find_global_conflict r nm1 = none)
    (hg2 : find_global_conflict r nm2 = none)
    (ht1 : find_temp_var nm1 r.scopes = none)
    (ht2 : find_temp_var nm2 r.scopes = none) :
    alookup (resolve_stmt (Stmt.choiceSet
        [Choice.mk [TextPart.literal t1] csp1 [Stmt.tempDecl id1 nm1 sp1],
         Choice.mk [TextPart.literal t2] csp2 [Stmt.tempDecl id2 nm2 sp2]])
        r).bindings id1 = some 0
    ∧ alookup (resolve_stmt (Stmt.choiceSet
        [Choice.mk [TextPart.literal t1] csp1 [Stmt.tempDecl id1 nm1 sp1],
         Choice.mk [TextPart.literal t2] csp2 [Stmt.tempDecl id2 nm2 sp2]])
        r).bindings id2 = some 0
    ∧ (resolve_stmt (Stmt.choiceSet
        [Choice.mk [TextPart.literal t1] csp1 [Stmt.tempDecl id1 nm1 sp1],
         Choice.mk [TextPart.literal t2] csp2 [Stmt.tempDecl id2 nm2 sp2]])
        r).next_slot = r.next_slot
    ∧ (resolve_stmt (Stmt.choiceSet
        [Choice.mk [TextPart.literal t1] csp1 [Stmt.tempDecl id1 nm1 sp1],
         Choice.mk [TextPart.literal t2] csp2 [Stmt.tempDecl id2 nm2 sp2]])
        r).scopes = r.scopes := by
  have htexts : resolve_choice_texts
      [Choice.mk [TextPart.literal t1] csp1 [Stmt.tempDecl id1 nm1 sp1],
       Choice.mk [TextPart.literal t2] csp2 [Stmt.tempDecl id2 nm2 sp2]] r
        = r := by
    simp [resolve_choice_texts, Choice.parts, resolve_text_parts]
  have h1 := branch_single_temp r id1 nm1 sp1 [TextPart.literal t1] csp1
    hg1 ht1
  have hg2' : find_global_conflict
      { r with bindings := (id1, r.next_slot) :: r.bindings } nm2 = none := hg2
  have ht2' : find_temp_var nm2
      ({ r with bindings := (id1, r.next_slot) :: r.bindings } : Resolver).scopes
        = none := ht2
  have h2 := branch_single_temp
    { r with bindings := (id1, r.next_slot) :: r.bindings } id2 nm2 sp2
    [TextPart.literal t2] csp2 hg2' ht2'
  have hstate : resolve_stmt (Stmt.choiceSet
      [Choice.mk [TextPart.literal t1] csp1 [Stmt.tempDecl id1 nm1 sp1],
       Choice.mk [TextPart.literal t2] csp2 [Stmt.tempDecl id2 nm2 sp2]]) r
      = { r with bindings :=
            (id2, r.next_slot) :: (id1, r.next_slot) :: r.bindings } := by
    rw [resolve_stmt, htexts]
    rw [resolve_choice_branches, h1, resolve_choice_branches, h2,
      resolve_choice_branches]
  rw [hstate, hslot]
  refine ⟨?_, ?_, rfl, rfl⟩
  · simp [alookup, Ne.symm hid]
  · simp [alookup]

/-- Witness for C1: starting from the initial resolver state, a choice set
whose two choices declare `x` and `y` binds node 0 and node 1 both to
slot 0, and the slot counter and scope stack are restored. -/
theorem c1_sibling_slot_reuse_witness :
    alookup (resolve_stmt (Stmt.choiceSet
        [Choice.mk [TextPart.literal "A"] ⟨0, 0⟩ [Stmt.tempDecl 0 "x" ⟨0, 1⟩],
         Choice.mk [TextPart.literal "B"] ⟨0, 0⟩ [Stmt.tempDecl 1 "y" ⟨2, 3⟩]])
        init_resolver).bindings 0 = some 0
    ∧ alookup (resolve_stmt (Stmt.choiceSet
        [Choice.mk [TextPart.literal "A"] ⟨0, 0⟩ [Stmt.tempDecl 0 "x" ⟨0, 1⟩],
         Choice.mk [TextPart.literal "B"] ⟨0, 0⟩ [Stmt.tempDecl 1 "y" ⟨2, 3⟩]])
        init_resolver).bindings 1 = some 0
    ∧ (resolve_stmt (Stmt.choiceSet
        [Choice.mk [TextPart.literal "A"] ⟨0, 0⟩ [Stmt.tempDecl 0 "x" ⟨0, 1⟩],
         Choice.mk [TextPart.literal "B"] ⟨0, 0⟩ [Stmt.tempDecl 1 "y" ⟨2, 3⟩]])
        init_resolver).next_slot = init_resolver.next_slot
    ∧ (resolve_stmt (Stmt.choiceSet
        [Choice.mk [TextPart.literal "A"] ⟨0, 0⟩ [Stmt.tempDecl 0 "x" ⟨0, 1⟩],
         Choice.mk [TextPart.literal "B"] ⟨0, 0⟩ [Stmt.tempDecl 1 "y" ⟨2, 3⟩]])
        init_resolver).scopes = init_resolver.scopes :=
  c1_sibling_slot_reuse init_resolver 0 1 "x" "y" "A" "B" ⟨0, 1⟩ ⟨2, 3⟩
    ⟨0, 0⟩ ⟨0, 0⟩ rfl (by decide) rfl rfl rfl rfl

/-- Claim C3: declaring a temp variable whose name is already bound as a
temp in the current scope or any enclosing scope, or that collides with a
declared save or extern name, always makes the resolver record a
`Shadowing` error whose cited original span is the span of an existing
declaration of that name; no binding is recorded, no slot is consumed, and
the scopes are untouched — the declaration is never silently accepted. -/
theorem c3_shadowing_rejected (r : Resolver) (id : NodeId) (name : String)
    (sp : Span)
    (hconflict : find_global_conflict r name ≠ none
      ∨ find_temp_var name r.scopes ≠ none) :
    ∃ original,
      (declare_temp id name sp r).errors
          = r.errors ++ [SemanticError.shadowing name sp original]
      ∧ (alookup r.save_vars name = some original
          ∨ alookup r.extern_vars name = some original
          ∨ ∃ sc ∈ r.scopes, ∃ vi, alookup sc.vars name = some vi
              ∧ vi.span = original)
      ∧ (declare_temp id name sp r).bindings = r.bindings
      ∧ (declare_temp id name sp r).next_slot = r.next_slot
      ∧ (declare_temp id name sp r).scopes = r.scopes := by
  cases hg : find_global_conflict r name with
  | some orig =>
    refine ⟨orig, ?_, ?_, ?_, ?_, ?_⟩
    · simp [declare_temp, hg]
    · cases hs : alookup r.save_vars name with
      | some sp' =>
        left
        have : sp' = orig := by
          simp [find_global_conflict, hs] at hg
          exact hg
        subst this
        rfl
      | none =>
        right; left
        have : alookup r.extern_vars name = some orig := by
          simpa [find_global_conflict, hs] using hg
        exact this
    · simp [declare_temp, hg]
    · simp [declare_temp, hg]
    · simp [declare_temp, hg]
  | none =>
    have htv : find_temp_var name r.scopes ≠ none := by
      rcases hconflict with h | h
      · exact absurd hg h
      · exact h
    obtain ⟨vi, hvi⟩ : ∃ vi, find_temp_var name r.scopes = some vi := by
      cases h : find_temp_var name r.scopes with
      | none => exact absurd h htv
      | some vi => exact ⟨vi, rfl⟩
    cases htail : find_temp_conflict name r.scopes.tail with
    | some orig =>
      refine ⟨orig, ?_, ?_, ?_, ?_, ?_⟩
      · simp [declare_temp, hg, htail]
      · right; right
        obtain ⟨vi', hvi'⟩ : ∃ vi', find_temp_var name r.scopes.tail = some vi'
            ∧ vi'.span = orig := by
          cases h : find_temp_var name r.scopes.tail with
          | none => simp [find_temp_conflict, h] at htail
          | some vi' =>
            refine ⟨vi', rfl, ?_⟩
            simpa [find_temp_conflict, h] using htail
        obtain ⟨sc, hmem, hl⟩ := find_temp_var_mem hvi'.1
        refine ⟨sc, ?_, vi', hl, hvi'.2⟩
        cases hscopes : r.scopes with
        | nil => rw [hscopes] at hmem; simp at hmem
        | cons hd tl =>
          rw [hscopes] at hmem
          simp at hmem
          exact List.mem_cons_of_mem _ hmem
      · simp [declare_temp, hg, htail]
      · simp [declare_temp, hg, htail]
      · simp [declare_temp, hg, htail]
    | none =>
      obtain ⟨hd, tl, hscopes⟩ : ∃ hd tl, r.scopes = hd :: tl := by
        cases h : r.scopes with
        | nil => rw [h] at hvi; simp [find_temp_var] at hvi
        | cons hd tl => exact ⟨hd, tl, rfl⟩
      have htl : find_temp_var name tl = none := by
        have := htail
        rw [hscopes] at this
        cases h : find_temp_var name tl with
        | none => rfl
        | some vi' => simp [find_temp_conflict, h] at this
      have hhd : alookup hd.vars name = some vi := by
        rw [hscopes] at hvi
        cases h : alookup hd.vars name with
        | none => rw [find_temp_var_cons_none.mpr ⟨h, htl⟩] at hvi; cases hvi
        | some vi' =>
          have : find_temp_var name (hd :: tl) = some vi' := by
            simp [find_temp_var, h]
          rw [this] at hvi
          injection hvi with hvi
          rw [hvi]
      refine ⟨vi.span, ?_, ?_, ?_, ?_, ?_⟩
      · simp [declare_temp, hg, hscopes, find_temp_conflict, htl, hhd]
      · right; right
        exact ⟨hd, by rw [hscopes]; exact List.mem_cons_self _ _, vi, hhd, rfl⟩
      · simp [declare_temp, hg, hscopes, find_temp_conflict, htl, hhd]
      · simp [declare_temp, hg, hscopes, find_temp_conflict, htl, hhd]
      · simp [declare_temp, hg, hscopes, find_temp_conflict, htl, hhd]

/-- Witness for C3: redeclaring `gold` (an existing save variable) as a
temp is rejected with a `Shadowing` error citing the save declaration's
span, and no binding or slot is recorded. -/
theorem c3_shadowing_rejected_witness :
    ∃ original,
      (declare_temp 5 "gold" ⟨10, 14⟩ res_with_save).errors
          = res_with_save.errors
              ++ [SemanticError.shadowing "gold" ⟨10, 14⟩ original]
      ∧ (alookup res_with_save.save_vars "gold" = some original
          ∨ alookup res_with_save.extern_vars "gold" = some original
          ∨ ∃ sc ∈ res_with_save.scopes, ∃ vi,
              alookup sc.vars "gold" = some vi ∧ vi.span = original)
      ∧ (declare_temp 5 "gold" ⟨10, 14⟩ res_with_save).bindings
          = res_with_save.bindings
      ∧ (declare_temp 5 "gold" ⟨10, 14⟩ res_with_save).next_slot
          = res_with_save.next_slot
      ∧ (declare_temp 5 "gold" ⟨10, 14⟩ res_with_save).scopes
          = res_with_save.scopes :=
  c3_shadowing_rejected res_with_save 5 "gold" ⟨10, 14⟩ (Or.inl (by decide))

/-- Claim C4: an assignment whose target name is a declared extern always
makes the resolver record `AssignmentToExtern`, and the resulting state is
exactly the old one with that one error appended: no temp, save or extern
binding is recorded and the assignment never resolves. The
`extern_disjoint` hypothesis is the namespace mutual-exclusion invariant,
which holds in the initial state and is preserved by every resolver
operation (see `extern_disjoint_init` and `extern_disjoint_stmts`), so the
conclusion is independent of any same-named save or temp variable: none
can coexist with the extern declaration in a reachable state. -/
theorem c4_assignment_to_extern_rejected (r : Resolver) (id : NodeId)
    (name : String) (sp : Span)
    (hinv : extern_disjoint r)
    (hext : alookup r.extern_vars name ≠ none) :
    resolve_reference id name sp true r
      = { r with errors :=
            r.errors ++ [SemanticError.assignmentToExternVar name sp] } := by
  obtain ⟨sp0, hsp0⟩ : ∃ sp0, alookup r.extern_vars name = some sp0 := by
    cases h : alookup r.extern_vars name with
    | none => exact absurd h hext
    | some sp0 => exact ⟨sp0, rfl⟩
  have hmem := alookup_mem hsp0
  obtain ⟨htemp, hsave⟩ := hinv (name, sp0) hmem
  simp only at htemp hsave
  simp [resolve_reference, htemp, hsave, hsp0]

/-- Witness for C4: with `hp` declared extern, assigning to `hp` yields
exactly the `AssignmentToExtern` error and nothing else changes. -/
theorem c4_assignment_to_extern_rejected_witness :
    resolve_reference 3 "hp" ⟨5, 7⟩ true res_with_ext
      = { res_with_ext with errors :=
            res_with_ext.errors
              ++ [SemanticError.assignmentToExternVar "hp" ⟨5, 7⟩] } :=
  c4_assignment_to_extern_rejected res_with_ext 3 "hp" ⟨5, 7⟩ (by decide)
    (by decide)

theorem extern_disjoint_init : extern_disjoint init_resolver := by decide

theorem extern_disjoint_fields {r r' : Resolver}
    (hs : r'.scopes = r.scopes) (hsv : r'.save_vars = r.save_vars)
    (hev : r'.extern_vars = r.extern_vars)
    (h : extern_disjoint r) : extern_disjoint r' := by
  intro p hp
  rw [hev] at hp
  rw [hs, hsv]
  exact h p hp

theorem extern_disjoint_declare_temp {r : Resolver} (id : NodeId)
    (name : String) (sp : Span) (h : extern_disjoint r) :
    extern_disjoint (declare_temp id name sp r) := by
  cases hg : find_global_conflict r name with
  | some orig =>
    exact extern_disjoint_fields (by simp [declare_temp, hg])
      (by simp [declare_temp, hg]) (by simp [declare_temp, hg]) h
  | none =>
    cases htail : find_temp_conflict name r.scopes.tail with
    | some orig =>
      exact extern_disjoint_fields (by simp [declare_temp, hg, htail])
        (by simp [declare_temp, hg, htail]) (by simp [declare_temp, hg, htail])
        h
    | none =>
      cases hscopes : r.scopes with
      | nil =>
        exact extern_disjoint_fields
          (by simp [declare_temp, hg, hscopes, find_temp_conflict,
            find_temp_var])
          (by simp [declare_temp, hg, hscopes, find_temp_conflict,
            find_temp_var])
          (by simp [declare_temp, hg, hscopes, find_temp_conflict,
            find_temp_var]) h
      | cons current outer =>
        have htail2 : find_temp_conflict name outer = none := by
          rw [hscopes] at htail
          simpa using htail
        cases hcur : alookup current.vars name with
        | some vi =>
          exact extern_disjoint_fields
            (by simp [declare_temp, hg, htail2, hscopes, hcur])
            (by simp [declare_temp, hg, htail2, hscopes, hcur])
            (by simp [declare_temp, hg, htail2, hscopes, hcur]) h
        | none =>
          intro p hp
          have hp' : p ∈ r.extern_vars := by
            have : (declare_temp id name sp r).extern_vars = r.extern_vars := by
              simp [declare_temp, hg, htail2, hscopes, hcur]
            rw [this] at hp
            exact hp
          obtain ⟨htemp, hsave⟩ := h p hp'
          have hne : p.1 ≠ name := by
            have hev : alookup r.extern_vars name = none :=
              (find_global_conflict_none hg).2
            exact alookup_eq_none_forall hev p hp'
          constructor
          · have hscopes' : (declare_temp id name sp r).scopes
                = { current with
                      vars := (name, ⟨r.next_slot, sp⟩) :: current.vars }
                    :: outer := by
              simp [declare_temp, hg, htail2, hscopes, hcur]
            rw [hscopes']
            rw [hscopes] at htemp
            obtain ⟨hcurp, houter⟩ := find_temp_var_cons_none.mp htemp
            apply find_temp_var_cons_none.mpr
            refine ⟨?_, houter⟩
            simp only [alookup]
            rw [if_neg (Ne.symm hne)]
            exact hcurp
          · have : (declare_temp id name sp r).save_vars = r.save_vars := by
              simp [declare_temp, hg, htail2, hscopes, hcur]
            rw [this]
            exact hsave

theorem extern_disjoint_declare_save {r : Resolver} (id : NodeId)
    (name : String) (sp : Span) (h : extern_disjoint r) :
    extern_disjoint (declare_save id name sp r) := by
  cases hg : find_global_conflict r name with
  | some orig =>
    exact extern_disjoint_fields (by simp [declare_save, hg])
      (by simp [declare_save, hg]) (by simp [declare_save, hg]) h
  | none =>
    cases htc : find_temp_conflict name r.scopes with
    | some orig =>
      exact extern_disjoint_fields (by simp [declare_save, hg, htc])
        (by simp [declare_save, hg, htc]) (by simp [declare_save, hg, htc]) h
    | none =>
      intro p hp
      have hp' : p ∈ r.extern_vars := by
        have : (declare_save id name sp r).extern_vars = r.extern_vars := by
          simp [declare_save, hg, htc]
        rw [this] at hp
        exact hp
      obtain ⟨htemp, hsave⟩ := h p hp'
      have hne : p.1 ≠ name := by
        have hev : alookup r.extern_vars name = none :=
          (find_global_conflict_none hg).2
        exact alookup_eq_none_forall hev p hp'
      constructor
      · have : (declare_save id name sp r).scopes = r.scopes := by
          simp [declare_save, hg, htc]
        rw [this]
        exact htemp
      · have : (declare_save id name sp r).save_vars
            = (name, sp) :: r.save_vars := by
          simp [declare_save, hg, htc]
        rw [this]
        simp only [alookup]
        rw [if_neg (Ne.symm hne)]
        exact hsave

theorem extern_disjoint_declare_ext {r : Resolver} (name : String) (sp : Span)
    (h : extern_disjoint r) :
    extern_disjoint (declare_extern_var name sp r) := by
  cases hg : find_global_conflict r name with
  | some orig =>
    exact extern_disjoint_fields (by simp [declare_extern_var, hg])
      (by simp [declare_extern_var, hg]) (by simp [declare_extern_var, hg]) h
  | none =>
    cases htc : find_temp_conflict name r.scopes with
    | some orig =>
      exact extern_disjoint_fields (by simp [declare_extern_var, hg, htc])
        (by simp [declare_extern_var, hg, htc])
        (by simp [declare_extern_var, hg, htc]) h
    | none =>
      intro p hp
      have hscopes : (declare_extern_var name sp r).scopes = r.scopes := by
        simp [declare_extern_var, hg, htc]
      have hsv : (declare_extern_var name sp r).save_vars = r.save_vars := by
        simp [declare_extern_var, hg, htc]
      have hev : (declare_extern_var name sp r).extern_vars
          = (name, sp) :: r.extern_vars := by
        simp [declare_extern_var, hg, htc]
      rw [hev] at hp
      rw [hscopes, hsv]
      rcases List.mem_cons.mp hp with hp | hp
      · subst hp
        refine ⟨?_, (find_global_conflict_none hg).1⟩
        have := htc
        cases hft : find_temp_var name r.scopes with
        | none => rfl
        | some vi => simp [find_temp_conflict, hft] at this
      · exact h p hp

theorem extern_disjoint_resolve_reference {r : Resolver} (id : NodeId)
    (name : String) (sp : Span) (fw : Bool) (h : extern_disjoint r) :
    extern_disjoint (resolve_reference id name sp fw r) := by
  apply extern_disjoint_fields (r := r) ?_ ?_ ?_ h
  all_goals
    cases hft : find_temp_var name r.scopes with
    | some vi => simp [resolve_reference, hft]
    | none =>
      cases hs : alookup r.save_vars name with
      | some sp' => simp [resolve_reference, hft, hs]
      | none =>
        cases he : alookup r.extern_vars name with
        | some sp' =>
          cases fw with
          | true => simp [resolve_reference, hft, hs, he]
          | false => simp [resolve_reference, hft, hs, he]
        | none => simp [resolve_reference, hft, hs, he]

theorem extern_disjoint_resolve_text_parts {r : Resolver}
    (parts : List TextPart) (h : extern_disjoint r) :
    extern_disjoint (resolve_text_parts parts r) := by
  induction parts generalizing r with
  | nil => exact h
  | cons p rest ih =>
    cases p with
    | literal t =>
      have : resolve_text_parts (TextPart.literal t :: rest) r
          = resolve_text_parts rest r := rfl
      rw [this]
      exact ih h
    | varRef id name sp =>
      have : resolve_text_parts (TextPart.varRef id name sp :: rest) r
          = resolve_text_parts rest (resolve_reference id name sp false r) :=
        rfl
      rw [this]
      exact ih (extern_disjoint_resolve_reference id name sp false h)

theorem extern_disjoint_resolve_choice_texts {r : Resolver}
    (choices : List Choice) (h : extern_disjoint r) :
    extern_disjoint (resolve_choice_texts choices r) := by
  induction choices generalizing r with
  | nil => exact h
  | cons c rest ih =>
    have : resolve_choice_texts (c :: rest) r
        = resolve_choice_texts rest (resolve_text_parts (Choice.parts c) r) :=
      rfl
    rw [this]
    exact ih (extern_disjoint_resolve_text_parts _ h)

theorem extern_disjoint_push {r : Resolver} (h : extern_disjoint r) :
    extern_disjoint (push_scope r) := by
  intro p hp
  obtain ⟨htemp, hsave⟩ := h p hp
  refine ⟨?_, hsave⟩
  apply find_temp_var_cons_none.mpr
  exact ⟨rfl, htemp⟩

theorem extern_disjoint_pop {r : Resolver} (h : extern_disjoint r) :
    extern_disjoint (pop_scope r) := by
  cases hscopes : r.scopes with
  | nil =>
    intro p hp
    simp [pop_scope, hscopes] at hp ⊢
    have := h p hp
    rw [hscopes] at this
    exact this
  | cons sc rest =>
    intro p hp
    simp [pop_scope, hscopes] at hp ⊢
    have := h p hp
    rw [hscopes] at this
    exact ⟨(find_temp_var_cons_none.mp this.1).2, this.2⟩

mutual

theorem extern_disjoint_stmt (st : Stmt) (r : Resolver)
    (h : extern_disjoint r) : extern_disjoint (resolve_stmt st r) := by
  cases st with
  | tempDecl id name sp =>
    simp only [resolve_stmt]
    exact extern_disjoint_declare_temp id name sp h
  | saveDecl id name sp =>
    simp only [resolve_stmt]
    exact extern_disjoint_declare_save id name sp h
  | externDecl id name sp =>
    simp only [resolve_stmt]
    exact extern_disjoint_declare_ext name sp h
  | assignment id name sp =>
    simp only [resolve_stmt]
    exact extern_disjoint_resolve_reference id name sp true h
  | line parts sp =>
    simp only [resolve_stmt]
    exact extern_disjoint_resolve_text_parts parts h
  | choiceSet choices =>
    simp only [resolve_stmt]
    exact extern_disjoint_branches choices _
      (extern_disjoint_resolve_choice_texts choices h)

theorem extern_disjoint_branches (cs : List Choice) (r : Resolver)
    (h : extern_disjoint r) : extern_disjoint (resolve_choice_branches cs r) := by
  cases cs with
  | nil =>
    simp only [resolve_choice_branches]
    exact h
  | cons c rest =>
    simp only [resolve_choice_branches]
    exact extern_disjoint_branches rest _ (extern_disjoint_branch c r h)

theorem extern_disjoint_branch (c : Choice) (r : Resolver)
    (h : extern_disjoint r) : extern_disjoint (resolve_choice_branch c r) := by
  cases c with
  | mk parts sp nested =>
    simp only [resolve_choice_branch]
    exact extern_disjoint_pop
      (extern_disjoint_stmts nested _ (extern_disjoint_push h))

theorem extern_disjoint_stmts (l : List Stmt) (r : Resolver)
    (h : extern_disjoint r) : extern_disjoint (resolve_stmts l r) := by
  cases l with
  | nil =>
    simp only [resolve_stmts]
    exact h
  | cons st rest =>
    simp only [resolve_stmts]
    exact extern_disjoint_stmts rest _ (extern_disjoint_stmt st r h)

end

theorem extern_disjoint_reachable (statements : List Stmt) :
    extern_disjoint (resolve_stmts statements init_resolver) :=
  extern_disjoint_stmts statements init_resolver extern_disjoint_init

theorem run_fuel_oob {s : VM} (n : Nat) (h : s.chunk.code[s.ip]? = none) :
    run_fuel (n + 1) s = some (RunResult.panic, s) := by
  simp [run_fuel, h]

theorem run_fuel_ret {s : VM} (n : Nat)
    (h : s.chunk.code[s.ip]? = some Instruction.ret) :
    run_fuel (n + 1) s = some (RunResult.done, { s with ip := s.ip + 1 }) := by
  simp [run_fuel, h]

theorem run_fuel_jump {s : VM} (n target : Nat)
    (h : s.chunk.code[s.ip]? = some (Instruction.jump target)) :
    run_fuel (n + 1) s = run_fuel n { s with ip := target } := by
  simp [run_fuel, h]

theorem run_fuel_constant {s : VM} (n index : Nat)
    (h : s.chunk.code[s.ip]? = some (Instruction.constant index)) :
    run_fuel (n + 1) s
      = match s.chunk.constants[index]? with
        | none => some (RunResult.panic, { s with ip := s.ip + 1 })
        | some v =>
          run_fuel n { s with ip := s.ip + 1, stack := s.stack ++ [v] } := by
  cases hc : s.chunk.constants[index]? with
  | none => simp [run_fuel, h, hc]
  | some v => simp [run_fuel, h, hc]

theorem run_fuel_getLocal {s : VM} (n slot : Nat)
    (h : s.chunk.code[s.ip]? = some (Instruction.getLocal slot)) :
    run_fuel (n + 1) s
      = match s.stack[slot]? with
        | none => some (RunResult.panic, { s with ip := s.ip + 1 })
        | some v =>
          run_fuel n { s with ip := s.ip + 1, stack := s.stack ++ [v] } := by
  cases hc : s.stack[slot]? with
  | none => simp [run_fuel, h, hc]
  | some v => simp [run_fuel, h, hc]

theorem run_fuel_setLocal {s : VM} (n slot : Nat)
    (h : s.chunk.code[s.ip]? = some (Instruction.setLocal slot)) :
    run_fuel (n + 1) s
      = match stack_pop s.stack with
        | none => some (RunResult.panic, { s with ip := s.ip + 1 })
        | some (v, rest) =>
          if slot < rest.length then
            run_fuel n { s with ip := s.ip + 1, stack := rest.set slot v }
          else some (RunResult.panic, { s with ip := s.ip + 1 }) := by
  cases hc : stack_pop s.stack with
  | none => simp [run_fuel, h, hc]
  | some p =>
    obtain ⟨v, rest⟩ := p
    by_cases hlt : slot < rest.length
    · simp [run_fuel, h, hc, hlt]
    · simp [run_fuel, h, hc, hlt]

theorem run_fuel_concat {s : VM} (n count : Nat)
    (h : s.chunk.code[s.ip]? = some (Instruction.concat count)) :
    run_fuel (n + 1) s
      = if count ≤ s.stack.length then
          run_fuel n
            { s with
              ip := s.ip + 1
              stack := s.stack.take (s.stack.length - count)
                ++ [Value.str (String.join
                    ((s.stack.drop (s.stack.length - count)).map
                      Value.to_string_value))] }
        else some (RunResult.panic, { s with ip := s.ip + 1 }) := by
  by_cases hle : count ≤ s.stack.length
  · simp [run_fuel, h, hle]
  · simp [run_fuel, h, hle]

theorem run_fuel_lineEmit {s : VM} (n : Nat)
    (h : s.chunk.code[s.ip]? = some Instruction.lineEmit) :
    run_fuel (n + 1) s
      = match stack_pop s.stack with
        | none => some (RunResult.panic, { s with ip := s.ip + 1 })
        | some (v, rest) =>
          some (RunResult.lineOut v.to_string_value,
            { s with ip := s.ip + 1, stack := rest }) := by
  cases hc : stack_pop s.stack with
  | none => simp [run_fuel, h, hc]
  | some p =>
    obtain ⟨v, rest⟩ := p
    simp [run_fuel, h, hc]

theorem run_fuel_choiceDispatch {s : VM} (n count : Nat) (targets : List Nat)
    (h : s.chunk.code[s.ip]?
      = some (Instruction.choiceDispatch count targets)) :
    run_fuel (n + 1) s
      = if count ≤ s.stack.length then
          some (RunResult.choiceOut
              ((s.stack.drop (s.stack.length - count)).map
                Value.to_string_value),
            { s with stack := s.stack.take (s.stack.length - count) })
        else some (RunResult.panic, { s with ip := s.ip + 1 }) := by
  by_cases hle : count ≤ s.stack.length
  · simp [run_fuel, h, hle]
  · simp [run_fuel, h, hle]

theorem run_fuel_initStorage {s : VM} (n : Nat) (name : String)
    (h : s.chunk.code[s.ip]? = some (Instruction.initStorage name)) :
    run_fuel (n + 1) s
      = match stack_pop s.stack with
        | none => some (RunResult.panic, { s with ip := s.ip + 1 })
        | some (v, rest) =>
          run_fuel n
            { s with
              ip := s.ip + 1
              stack := rest
              storage := init_if_absent name v s.storage } := by
  cases hc : stack_pop s.stack with
  | none => simp [run_fuel, h, hc]
  | some p =>
    obtain ⟨v, rest⟩ := p
    simp [run_fuel, h, hc]

theorem run_fuel_getStorage {s : VM} (n : Nat) (name : String)
    (h : s.chunk.code[s.ip]? = some (Instruction.getStorage name)) :
    run_fuel (n + 1) s
      = match alookup s.storage name with
        | some v =>
          run_fuel n { s with ip := s.ip + 1, stack := s.stack ++ [v] }
        | none =>
          some (RunResult.rerr (RuntimeError.missingSaveVariable name),
            { s with ip := s.ip + 1 }) := by
  cases hc : alookup s.storage name with
  | none => simp [run_fuel, h, hc]
  | some v => simp [run_fuel, h, hc]

theorem run_fuel_setStorage {s : VM} (n : Nat) (name : String)
    (h : s.chunk.code[s.ip]? = some (Instruction.setStorage name)) :
    run_fuel (n + 1) s
      = match stack_pop s.stack with
        | none => some (RunResult.panic, { s with ip := s.ip + 1 })
        | some (v, rest) =>
          run_fuel n
            { s with
              ip := s.ip + 1
              stack := rest
              storage := store_set name v s.storage } := by
  cases hc : stack_pop s.stack with
  | none => simp [run_fuel, h, hc]
  | some p =>
    obtain ⟨v, rest⟩ := p
    simp [run_fuel, h, hc]

theorem run_fuel_getHost {s : VM} (n : Nat) (name : String)
    (h : s.chunk.code[s.ip]? = some (Instruction.getHost name)) :
    run_fuel (n + 1) s
      = match alookup s.host name with
        | some v =>
          run_fuel n { s with ip := s.ip + 1, stack := s.stack ++ [v] }
        | none =>
          some (RunResult.rerr (RuntimeError.missingExternVariable name),
            { s with ip := s.ip + 1 }) := by
  cases hc : alookup s.host name with
  | none => simp [run_fuel, h, hc]
  | some v => simp [run_fuel, h, hc]

theorem walk_iter_succ (c : Chunk) :
    ∀ k ip, walk_iter c (k + 1) ip = (walk_iter c k ip).bind (next_ip c) := by
  intro k
  induction k with
  | zero =>
    intro ip
    cases h : next_ip c ip with
    | none => simp [walk_iter, h]
    | some j => simp [walk_iter, h]
  | succ k ih =>
    intro ip
    cases h : next_ip c ip with
    | none =>
      have h1 : walk_iter c (k + 1 + 1) ip = none := by
        simp [walk_iter, h]
      have h2 : walk_iter c (k + 1) ip = none := by
        simp [walk_iter, h]
      rw [h1, h2]
      rfl
    | some j =>
      have h1 : walk_iter c (k + 1 + 1) ip = walk_iter c (k + 1) j := by
        simp [walk_iter, h]
      have h2 : walk_iter c (k + 1) ip = walk_iter c k j := by
        simp [walk_iter, h]
      rw [h1, h2, ih j]

theorem next_ip_le (c : Chunk) (hj : jump_targets_ok c = true) :
    ∀ ip j, next_ip c ip = some j → j ≤ c.code.length := by
  intro ip j h
  cases hget : c.code[ip]? with
  | none => simp [next_ip, hget] at h
  | some i =>
    have hlt : ip < c.code.length := by
      by_contra hge
      push_neg at hge
      rw [List.getElem?_eq_none hge] at hget
      cases hget
    have hmem : i ∈ c.code := by
      have hg2 : c.code.get? ip = some i := by
        rw [List.get?_eq_getElem?]
        exact hget
      exact List.get?_mem hg2
    cases i with
    | jump target =>
      have hjt : target = j := by simpa [next_ip, hget] using h
      have := List.all_eq_true.mp hj _ hmem
      simp at this
      omega
    | ret => simp [next_ip, hget] at h
    | lineEmit => simp [next_ip, hget] at h
    | choiceDispatch count targets => simp [next_ip, hget] at h
    | constant index =>
      have hjt : ip + 1 = j := by simpa [next_ip, hget] using h
      omega
    | getLocal slot =>
      have hjt : ip + 1 = j := by simpa [next_ip, hget] using h
      omega
    | setLocal slot =>
      have hjt : ip + 1 = j := by simpa [next_ip, hget] using h
      omega
    | concat count =>
      have hjt : ip + 1 = j := by simpa [next_ip, hget] using h
      omega
    | initStorage name =>
      have hjt : ip + 1 = j := by simpa [next_ip, hget] using h
      omega
    | getStorage name =>
      have hjt : ip + 1 = j := by simpa [next_ip, hget] using h
      omega
    | setStorage name =>
      have hjt : ip + 1 = j := by simpa [next_ip, hget] using h
      omega
    | getHost name =>
      have hjt : ip + 1 = j := by simpa [next_ip, hget] using h
      omega

theorem walk_stops (c : Chunk) (ip0 : Nat) (hj : jump_targets_ok c = true)
    (hacyclic : ∀ k2, k2 ≤ c.code.length + 2 → ∀ k1, k1 < k2 →
      (walk_iter c k1 ip0).isSome → walk_iter c k1 ip0 ≠ walk_iter c k2 ip0) :
    ∃ k, k ≤ c.code.length + 1
      ∧ ∃ j, walk_iter c k ip0 = some j ∧ next_ip c j = none := by
  by_contra hno
  push_neg at hno
  have hdef : ∀ k, k ≤ c.code.length + 2 → (walk_iter c k ip0).isSome := by
    intro k
    induction k with
    | zero => intro _; simp [walk_iter]
    | succ k ih =>
      intro hk
      have h1 : (walk_iter c k ip0).isSome := ih (by omega)
      obtain ⟨j, hjj⟩ := Option.isSome_iff_exists.mp h1
      have hnext : next_ip c j ≠ none := hno k (by omega) j hjj
      obtain ⟨t, ht⟩ := Option.ne_none_iff_exists'.mp hnext
      rw [walk_iter_succ, hjj]
      simp [ht]
  have hsome : ∀ i : Fin (c.code.length + 2),
      ∃ j, walk_iter c (i.1 + 1) ip0 = some j ∧ j < c.code.length + 1 := by
    intro i
    have hd := hdef (i.1 + 1) (by omega)
    obtain ⟨j, hjj⟩ := Option.isSome_iff_exists.mp hd
    refine ⟨j, hjj, ?_⟩
    rw [walk_iter_succ] at hjj
    cases hw : walk_iter c i.1 ip0 with
    | none => rw [hw] at hjj; simp at hjj
    | some j' =>
      rw [hw] at hjj
      simp at hjj
      have := next_ip_le c hj j' j hjj
      omega
  choose w hw1 hw2 using hsome
  have hinj : Function.Injective
      (fun i : Fin (c.code.length + 2) =>
        (⟨w i, hw2 i⟩ : Fin (c.code.length + 1))) := by
    intro i i' hii
    simp at hii
    by_contra hne
    have hne' : i.1 ≠ i'.1 := fun h => hne (Fin.ext h)
    rcases Nat.lt_or_ge i.1 i'.1 with hlt | hge
    · have := hacyclic (i'.1 + 1) (by omega) (i.1 + 1) (by omega)
        (by rw [hw1 i]; rfl)
      apply this
      rw [hw1 i, hw1 i', hii]
    · have hlt' : i'.1 < i.1 := by omega
      have := hacyclic (i.1 + 1) (by omega) (i'.1 + 1) (by omega)
        (by rw [hw1 i']; rfl)
      apply this
      rw [hw1 i, hw1 i', hii]
  have hcard := Fintype.card_le_of_injective _ hinj
  simp [Fintype.card_fin] at hcard

theorem run_terminates_of_walk_stop :
    ∀ k (s : VM) j, walk_iter s.chunk k s.ip = some j →
      next_ip s.chunk j = none →
      ∃ r s', run_fuel (k + 1) s = some (r, s') := by
  intro k
  induction k with
  | zero =>
    intro s j hw hstop
    have hj : s.ip = j := by simpa [walk_iter] using hw
    rw [← hj] at hstop
    cases hget : s.chunk.code[s.ip]? with
    | none => exact ⟨_, _, run_fuel_oob 0 hget⟩
    | some i =>
      cases i with
      | ret => exact ⟨_, _, run_fuel_ret 0 hget⟩
      | lineEmit =>
        cases hp : stack_pop s.stack with
        | none =>
          exact ⟨RunResult.panic, { s with ip := s.ip + 1 },
            by rw [run_fuel_lineEmit 0 hget, hp]⟩
        | some p =>
          obtain ⟨v, rest⟩ := p
          exact ⟨RunResult.lineOut v.to_string_value,
            { s with ip := s.ip + 1, stack := rest },
            by rw [run_fuel_lineEmit 0 hget, hp]⟩
      | choiceDispatch count targets =>
        by_cases hle : count ≤ s.stack.length
        · exact ⟨RunResult.choiceOut
              ((s.stack.drop (s.stack.length - count)).map
                Value.to_string_value),
            { s with stack := s.stack.take (s.stack.length - count) },
            by rw [run_fuel_choiceDispatch 0 count targets hget, if_pos hle]⟩
        · exact ⟨RunResult.panic, { s with ip := s.ip + 1 },
            by rw [run_fuel_choiceDispatch 0 count targets hget, if_neg hle]⟩
      | jump target => simp [next_ip, hget] at hstop
      | constant index => simp [next_ip, hget] at hstop
      | getLocal slot => simp [next_ip, hget] at hstop
      | setLocal slot => simp [next_ip, hget] at hstop
      | concat count => simp [next_ip, hget] at hstop
      | initStorage name => simp [next_ip, hget] at hstop
      | getStorage name => simp [next_ip, hget] at hstop
      | setStorage name => simp [next_ip, hget] at hstop
      | getHost name => simp [next_ip, hget] at hstop
  | succ k ih =>
    intro s j hw hstop
    obtain ⟨t, hn, hw'⟩ : ∃ t, next_ip s.chunk s.ip = some t
        ∧ walk_iter s.chunk k t = some j := by
      cases hn : next_ip s.chunk s.ip with
      | none => simp [walk_iter, hn] at hw
      | some t =>
        refine ⟨t, rfl, ?_⟩
        simpa [walk_iter, hn] using hw
    cases hget : s.chunk.code[s.ip]? with
    | none => simp [next_ip, hget] at hn
    | some i =>
      cases i with
      | ret => simp [next_ip, hget] at hn
      | lineEmit => simp [next_ip, hget] at hn
      | choiceDispatch count targets => simp [next_ip, hget] at hn
      | jump target =>
        have ht : target = t := by simpa [next_ip, hget] using hn
        subst ht
        obtain ⟨r, s', hr⟩ := ih { s with ip := target } j hw' hstop
        exact ⟨r, s', by rw [run_fuel_jump (k + 1) target hget]; exact hr⟩
      | constant index =>
        have ht : s.ip + 1 = t := by simpa [next_ip, hget] using hn
        subst ht
        cases hc : s.chunk.constants[index]? with
        | none =>
          exact ⟨RunResult.panic, { s with ip := s.ip + 1 },
            by rw [run_fuel_constant (k + 1) index hget, hc]⟩
        | some v =>
          obtain ⟨r, s', hr⟩ :=
            ih { s with ip := s.ip + 1, stack := s.stack ++ [v] } j hw' hstop
          refine ⟨r, s', ?_⟩
          rw [run_fuel_constant (k + 1) index hget, hc]
          exact hr
      | getLocal slot =>
        have ht : s.ip + 1 = t := by simpa [next_ip, hget] using hn
        subst ht
        cases hc : s.stack[slot]? with
        | none =>
          exact ⟨RunResult.panic, { s with ip := s.ip + 1 },
            by rw [run_fuel_getLocal (k + 1) slot hget, hc]⟩
        | some v =>
          obtain ⟨r, s', hr⟩ :=
            ih { s with ip := s.ip + 1, stack := s.stack ++ [v] } j hw' hstop
          refine ⟨r, s', ?_⟩
          rw [run_fuel_getLocal (k + 1) slot hget, hc]
          exact hr
      | setLocal slot =>
        have ht : s.ip + 1 = t := by simpa [next_ip, hget] using hn
        subst ht
        cases hc : stack_pop s.stack with
        | none =>
          exact ⟨RunResult.panic, { s with ip := s.ip + 1 },
            by rw [run_fuel_setLocal (k + 1) slot hget, hc]⟩
        | some p =>
          obtain ⟨v, rest⟩ := p
          by_cases hlt : slot < rest.length
          · obtain ⟨r, s', hr⟩ :=
              ih { s with ip := s.ip + 1, stack := rest.set slot v } j hw'
                hstop
            refine ⟨r, s', ?_⟩
            rw [run_fuel_setLocal (k + 1) slot hget, hc]
            simp only [if_pos hlt]
            exact hr
          · exact ⟨RunResult.panic, { s with ip := s.ip + 1 },
              by rw [run_fuel_setLocal (k + 1) slot hget, hc]
                 simp only [if_neg hlt]⟩
      | concat count =>
        have ht : s.ip + 1 = t := by simpa [next_ip, hget] using hn
        subst ht
        by_cases hle : count ≤ s.stack.length
        · obtain ⟨r, s', hr⟩ :=
            ih { s with
                  ip := s.ip + 1
                  stack := s.stack.take (s.stack.length - count)
                    ++ [Value.str (String.join
                        ((s.stack.drop (s.stack.length - count)).map
                          Value.to_string_value))] } j hw' hstop
          refine ⟨r, s', ?_⟩
          rw [run_fuel_concat (k + 1) count hget, if_pos hle]
          exact hr
        · exact ⟨RunResult.panic, { s with ip := s.ip + 1 },
            by rw [run_fuel_concat (k + 1) count hget, if_neg hle]⟩
      | initStorage name =>
        have ht : s.ip + 1 = t := by simpa [next_ip, hget] using hn
        subst ht
        cases hc : stack_pop s.stack with
        | none =>
          exact ⟨RunResult.panic, { s with ip := s.ip + 1 },
            by rw [run_fuel_initStorage (k + 1) name hget, hc]⟩
        | some p =>
          obtain ⟨v, rest⟩ := p
          obtain ⟨r, s', hr⟩ :=
            ih { s with
                  ip := s.ip + 1
                  stack := rest
                  storage := init_if_absent name v s.storage } j hw' hstop
          refine ⟨r, s', ?_⟩
          rw [run_fuel_initStorage (k + 1) name hget, hc]
          exact hr
      | getStorage name =>
        have ht : s.ip + 1 = t := by simpa [next_ip, hget] using hn
        subst ht
        cases hc : alookup s.storage name with
        | none =>
          exact ⟨RunResult.rerr (RuntimeError.missingSaveVariable name),
            { s with ip := s.ip + 1 },
            by rw [run_fuel_getStorage (k + 1) name hget, hc]⟩
        | some v =>
          obtain ⟨r, s', hr⟩ :=
            ih { s with ip := s.ip + 1, stack := s.stack ++ [v] } j hw' hstop
          refine ⟨r, s', ?_⟩
          rw [run_fuel_getStorage (k + 1) name hget, hc]
          exact hr
      | setStorage name =>
        have ht : s.ip + 1 = t := by simpa [next_ip, hget] using hn
        subst ht
        cases hc : stack_pop s.stack with
        | none =>
          exact ⟨RunResult.panic, { s with ip := s.ip + 1 },
            by rw [run_fuel_setStorage (k + 1) name hget, hc]⟩
        | some p =>
          obtain ⟨v, rest⟩ := p
          obtain ⟨r, s', hr⟩ :=
            ih { s with
                  ip := s.ip + 1
                  stack := rest
                  storage := store_set name v s.storage } j hw' hstop
          refine ⟨r, s', ?_⟩
          rw [run_fuel_setStorage (k + 1) name hget, hc]
          exact hr
      | getHost name =>
        have ht : s.ip + 1 = t := by simpa [next_ip, hget] using hn
        subst ht
        cases hc : alookup s.host name with
        | none =>
          exact ⟨RunResult.rerr (RuntimeError.missingExternVariable name),
            { s with ip := s.ip + 1 },
            by rw [run_fuel_getHost (k + 1) name hget, hc]⟩
        | some v =>
          obtain ⟨r, s', hr⟩ :=
            ih { s with ip := s.ip + 1, stack := s.stack ++ [v] } j hw' hstop
          refine ⟨r, s', ?_⟩
          rw [run_fuel_getHost (k + 1) name hget, hc]
          exact hr


/-- Claim C7 (amended): on a chunk whose jump and choice targets are in
bounds and whose pause-free instruction walk from the current ip has no
jump cycle, a `step` call terminates — but the outcome may also be a panic
(out-of-bounds access or stack underflow), not only Line, Choice, Done or
a runtime error as the claim states (see the counterexample). -/
theorem c7_step_terminates_amended (s : VM)
    (hjump : jump_targets_ok s.chunk = true)
    (hchoice : choice_targets_ok s.chunk = true)
    (hacyclic : no_pause_free_cycle s) :
    ∃ fuel r s', step fuel s = some (r, s') := by
  obtain ⟨k, hk, j, hw, hstop⟩ := walk_stops s.chunk s.ip hjump hacyclic
  obtain ⟨r, s', hr⟩ := run_terminates_of_walk_stop k s j hw hstop
  exact ⟨k + 1, r, s', hr⟩

/-- Witness for C7 (amended): a chunk holding a single line-emit pauses,
so `step` terminates on it. -/
theorem c7_step_terminates_amended_witness :
    ∃ fuel r s', step fuel (vm_start chunk_line1) = some (r, s') :=
  c7_step_terminates_amended (vm_start chunk_line1) (by decide) (by decide)
    (by decide)

/-- Counterexample for C7 as stated: `chunk_concat0` satisfies the claim's
hypotheses — all (zero) jump and choice targets in bounds, no pause-free
jump cycle — yet every terminating `step` on it ends in a panic (execution
runs past the end of code), which is none of Line, Choice, Done or a
runtime error. -/
theorem c7_step_terminates_counterexample :
    jump_targets_ok chunk_concat0 = true
    ∧ choice_targets_ok chunk_concat0 = true
    ∧ no_pause_free_cycle (vm_start chunk_concat0)
    ∧ run_never_normal (vm_start chunk_concat0) := by
  have hg : (vm_start chunk_concat0).chunk.code[(vm_start chunk_concat0).ip]?
      = some (Instruction.concat 0) := rfl
  have hg2 : vm_concat0_stuck.chunk.code[vm_concat0_stuck.ip]? = none := rfl
  have key : ∀ m, run_fuel (m + 1 + 1) (vm_start chunk_concat0)
      = some (RunResult.panic, vm_concat0_stuck) := by
    intro m
    have step1 : run_fuel (m + 1 + 1) (vm_start chunk_concat0)
        = run_fuel (m + 1) vm_concat0_stuck := by
      rw [run_fuel_concat (m + 1) 0 hg]
      rfl
    rw [step1, run_fuel_oob m hg2]
  refine ⟨rfl, rfl, by decide, ?_⟩
  intro n r s' h
  match n with
  | 0 => simp [run_fuel] at h
  | 1 =>
    rw [run_fuel_concat 0 0 hg] at h
    simp [run_fuel] at h
  | n + 2 =>
    rw [key n] at h
    have : RunResult.panic = r := congrArg Prod.fst (Option.some.inj h)
    rw [← this]
    rfl

theorem mem_insert_desc {x a : String × ℚ} :
    ∀ {l : List (String × ℚ)}, a ∈ insert_desc x l ↔ a = x ∨ a ∈ l := by
  intro l
  induction l with
  | nil => simp [insert_desc]
  | cons y ys ih =>
    by_cases hy : y.2 < x.2
    · simp [insert_desc, hy]
    · simp [insert_desc, hy, ih]
      tauto

theorem mem_sort_desc {a : String × ℚ} :
    ∀ {l : List (String × ℚ)}, a ∈ sort_desc l ↔ a ∈ l := by
  intro l
  induction l with
  | nil => simp [sort_desc]
  | cons x xs ih =>
    simp [sort_desc, mem_insert_desc, ih]

theorem max_by_score_aux (l : List (String × ℚ)) :
    ∀ x, ∃ y, List.foldl
      (fun acc p =>
        match acc with
        | none => some p
        | some a => if p.2 < a.2 then some a else some p)
      (some x) l = some y ∧ (y = x ∨ y ∈ l) := by
  induction l with
  | nil => intro x; exact ⟨x, rfl, Or.inl rfl⟩
  | cons p rest ih =>
    intro x
    by_cases hp : p.2 < x.2
    · obtain ⟨y, hy, hmem⟩ := ih x
      refine ⟨y, ?_, ?_⟩
      · simpa [List.foldl, hp] using hy
      · rcases hmem with h | h
        · exact Or.inl h
        · exact Or.inr (List.mem_cons_of_mem _ h)
    · obtain ⟨y, hy, hmem⟩ := ih p
      refine ⟨y, ?_, ?_⟩
      · simpa [List.foldl, hp] using hy
      · rcases hmem with h | h
        · exact Or.inr (h ▸ List.mem_cons_self _ _)
        · exact Or.inr (List.mem_cons_of_mem _ h)

theorem max_by_score_eq_none_iff {l : List (String × ℚ)} :
    max_by_score l = none ↔ l = [] := by
  cases l with
  | nil => simp [max_by_score]
  | cons x rest =>
    simp only [max_by_score, List.foldl]
    obtain ⟨y, hy, _⟩ := max_by_score_aux rest x
    constructor
    · intro h
      rw [hy] at h
      cases h
    · intro h
      cases h

theorem max_by_score_mem {l : List (String × ℚ)} {p : String × ℚ}
    (h : max_by_score l = some p) : p ∈ l := by
  cases l with
  | nil => cases h
  | cons x rest =>
    have hfold : List.foldl
        (fun acc q =>
          match acc with
          | none => some q
          | some a => if q.2 < a.2 then some a else some q)
        (some x) rest = some p := by
      simpa [max_by_score, List.foldl] using h
    obtain ⟨y, hy, hmem⟩ := max_by_score_aux rest x
    rw [hy] at hfold
    injection hfold with hyp
    subst hyp
    rcases hmem with hmem | hmem
    · exact hmem ▸ List.mem_cons_self _ _
    · exact List.mem_cons_of_mem _ hmem

/-- Claim C8: the fuzzy threshold boundary is inclusive. The default
threshold is 0.7; `find_similar` keeps exactly the candidates whose
similarity score is at or above the matcher's threshold (one scoring
exactly at the threshold is kept, one strictly below is dropped); and
`best_match` returns a kept candidate, or `none` exactly when every
candidate scores strictly below the threshold. Similarity scoring itself
lives in the external `strsim` crate, so the statement holds for every
similarity function `sim`. -/
theorem c8_fuzzy_threshold_inclusive (sim : String → String → ℚ)
    (m : JaroWinklerMatcher) (query : String) (candidates : List String) :
    default_threshold.threshold = 7 / 10
    ∧ (∀ p : String × ℚ, p ∈ find_similar sim m query candidates
        ↔ (p.1 ∈ candidates ∧ p.2 = sim query p.1 ∧ m.threshold ≤ p.2))
    ∧ (best_match sim m query candidates = none
        ↔ ∀ c ∈ candidates, sim query c < m.threshold)
    ∧ (∀ p : String × ℚ, best_match sim m query candidates = some p →
        p.1 ∈ candidates ∧ p.2 = sim query p.1 ∧ m.threshold ≤ p.2) := by
  have hmemfilter : ∀ p : String × ℚ,
      p ∈ (scored sim query candidates).filter
          (fun q => decide (m.threshold ≤ q.2))
        ↔ (p.1 ∈ candidates ∧ p.2 = sim query p.1 ∧ m.threshold ≤ p.2) := by
    intro p
    rw [List.mem_filter]
    constructor
    · intro ⟨hmem, hpred⟩
      obtain ⟨c, hc, hcp⟩ := List.mem_map.mp hmem
      have h1 : p.1 = c := by rw [← hcp]
      have h2 : p.2 = sim query c := by rw [← hcp]
      refine ⟨h1 ▸ hc, by rw [h2, h1], ?_⟩
      simpa using hpred
    · intro ⟨hc, hsim, hth⟩
      refine ⟨?_, by simpa using hth⟩
      apply List.mem_map.mpr
      refine ⟨p.1, hc, ?_⟩
      rw [← hsim]
  refine ⟨rfl, ?_, ?_, ?_⟩
  · intro p
    rw [find_similar, mem_sort_desc]
    exact hmemfilter p
  · rw [best_match, max_by_score_eq_none_iff, List.filter_eq_nil_iff]
    constructor
    · intro h c hc
      by_contra hge
      push_neg at hge
      exact h (c, sim query c)
        (List.mem_map.mpr ⟨c, hc, rfl⟩) (by simpa using hge)
    · intro h q hq
      obtain ⟨c, hc, hcq⟩ := List.mem_map.mp hq
      have := h c hc
      simp only [← hcq]
      simp
      exact this
  · intro p hp
    exact (hmemfilter p).mp (max_by_score_mem hp)

/-- Witness for C8: with a similarity function scoring exactly at the
default threshold 0.7, the candidate is kept by `find_similar` — the
boundary is inclusive. -/
theorem c8_fuzzy_threshold_inclusive_witness :
    ("gold", (7 : ℚ) / 10)
      ∈ find_similar (fun _ _ => (7 : ℚ) / 10) default_threshold "golb"
          ["gold"] :=
  ((c8_fuzzy_threshold_inclusive (fun _ _ => (7 : ℚ) / 10) default_threshold
      "golb" ["gold"]).2.1 ("gold", (7 : ℚ) / 10)).mpr
    ⟨by decide, rfl, by norm_num [default_threshold, matcher_new]⟩
